import Mathlib

/-!
# routingProtocolsFANET: orchestration and measurement layer

A shallow embedding of `RoutingExperiment` from
`NS3 Simulation Code/routingProtocolsFANET.cc`:

* the object's members (`port`, `bytesTotal`, `packetsReceived`, `m_nSinks`,
  `m_protocolName`, `m_txp`, `m_protocol`) are fields of a record;
* `uint32_t` members are natural numbers reduced modulo `2 ^ 32` after every
  addition;
* the CSV file is the list of rows appended so far;
* the discrete-event engine is a time-ordered event list with FIFO tie-break;
* `Run` is explicit state passing: every stage either continues with the new
  state or aborts, and an abort carries the state reached at that point.

Times are integer nanoseconds, the engine's resolution. A `double` is the
rational number it holds: `toDouble` rounds a quotient to 53 significant bits
the way the division `(bytesTotal * 8.0) / 1000` does, and `sixDigits` is what
the output stream makes of a `double` at its default precision of six
significant digits, so `ReceiveRate` and `TransmissionPower` of a row are the
numbers that stand in the file. The helpers of `Run` that set up
the radio, the mobility model, the traces and the flow monitor do not touch the
members, the CSV file or the sampling events and are left out. The members
`m_nSinks`, `m_txp` and `m_protocolName`, which the constructor does not set,
start at `0` and the empty string; `Run` assigns all three before use.
-/

namespace RoutingExperiment

/-! ## Data model -/

/-- Simulated time in nanoseconds. -/
abbrev Time := Nat

/-- Conversion of whole seconds to simulated time, `Seconds(s)`. -/
def Seconds (s : Nat) : Time := s * 1000000000

/-- Modulus of the `uint32_t` members. -/
def UINT32 : Nat := 4294967296

/-- Node handle: the id the engine gave the node. -/
abbrev Node := Nat

/-- IPv4 address, as its 32-bit value. -/
abbrev Ipv4Address := Nat

/-- UDP socket of a sink: the node it lives on, the local address and port it
is bound to, and the sizes of the datagrams waiting in its receive queue. -/
structure Socket where
  node : Node
  addr : Ipv4Address
  port : Nat
  pending : List Nat
deriving DecidableEq

/-- One line of the CSV file, in column order. `SimulationSecond` is the clock
value of the tick; `ReceiveRate` and `TransmissionPower` are the numbers as
written, with six significant digits. -/
structure Row where
  SimulationSecond : Time
  ReceiveRate : ℚ
  PacketsReceived : Nat
  NumberOfSinks : Int
  RoutingProtocol : String
  TransmissionPower : ℚ
deriving DecidableEq

/-- Work an event performs when the engine invokes it. -/
inductive EventImpl where
  | checkThroughput
  | stop
  | receivePacket (socket : Socket)
deriving DecidableEq

/-- Scheduled event: its timestamp and what it runs. -/
structure Event where
  ts : Time
  impl : EventImpl
deriving DecidableEq

/-- Entry of the `Ipv4ListRoutingHelper`: routing protocol and priority. -/
structure ListEntry where
  routing : String
  priority : Int
deriving DecidableEq

/-- Installation performed on a node set. -/
inductive InstallAction where
  | internetInstall (routingHelper : Option (List ListEntry)) (nodes : List Node)
  | dsrMainInstall (nodes : List Node)
deriving DecidableEq

/-- Sender application created by the flow loop together with the sink it
targets. -/
structure Flow where
  sink : Socket
  sender : Node
  remoteAddr : Ipv4Address
  remotePort : Nat
  start : Time
  stop : Time
deriving DecidableEq

/-- Ways in which `Run` can abort. -/
inductive Fault where
  | noSuchProtocol (code : Nat)
  | indexOutOfRange (index size : Nat)
deriving DecidableEq

/-- Whole state touched by `Run`: the members of `RoutingExperiment`, the
helpers local to `Run`, the CSV file and the event engine. -/
structure World where
  port : Nat
  bytesTotal : Nat
  packetsReceived : Nat
  m_nSinks : Int
  m_protocolName : String
  m_txp : ℚ
  m_protocol : Nat
  list : List ListEntry
  installs : List InstallAction
  flows : List Flow
  csv : List Row
  now : Time
  events : List Event
  stopped : Bool
deriving DecidableEq

/-- Result of a stage of `Run`. -/
abbrev Outcome := Except (Fault × World) World

/-- State after the constructor, with the protocol code read from the command
line (`CommandSetup`; the constructor's default is 2). -/
def init (m_protocol : Nat) : World :=
  { port := 9, bytesTotal := 0, packetsReceived := 0, m_nSinks := 0,
    m_protocolName := "", m_txp := 0, m_protocol := m_protocol,
    list := [], installs := [], flows := [], csv := [],
    now := 0, events := [], stopped := false }

/-! ## Protocol selection and stack installation -/

/-- The `switch (m_protocol)` of `Run`. -/
def selectProtocol (w : World) : Outcome :=
  match w.m_protocol with
  | 1 => .ok { w with list := w.list ++ [⟨"olsr", 100⟩], m_protocolName := "OLSR" }
  | 2 => .ok { w with list := w.list ++ [⟨"aodv", 100⟩], m_protocolName := "AODV" }
  | 3 => .ok { w with list := w.list ++ [⟨"dsdv", 100⟩], m_protocolName := "DSDV" }
  | 4 => .ok { w with m_protocolName := "DSR" }
  | c => .error (Fault.noSuchProtocol c, w)

/-- The `if (m_protocol < 4) ... else if (m_protocol == 4) ...` of `Run`. -/
def installStack (adhocNodes : List Node) (w : World) : World :=
  if w.m_protocol < 4 then
    { w with installs := w.installs ++ [InstallAction.internetInstall (some w.list) adhocNodes] }
  else if w.m_protocol = 4 then
    { w with installs := w.installs ++
        [InstallAction.internetInstall none adhocNodes, InstallAction.dsrMainInstall adhocNodes] }
  else w

/-! ## Counters and the receive callback -/

/-- The `while (packet = socket->RecvFrom (senderAddress))` loop of
`ReceivePacket`, over the sizes of the datagrams still queued on the socket:
an empty queue makes `RecvFrom` return a null packet and the loop ends,
otherwise the head datagram is taken and both `uint32_t` counters are bumped. -/
def receiveLoop : List Nat → World → World
  | [], w => w
  | size :: rest, w =>
      receiveLoop rest
        { w with bytesTotal := (w.bytesTotal + size) % UINT32,
                 packetsReceived := (w.packetsReceived + 1) % UINT32 }

/-- Member `RoutingExperiment::ReceivePacket`: returns the new state and the socket as
the loop leaves it. -/
def ReceivePacket (socket : Socket) (w : World) : World × Socket :=
  (receiveLoop socket.pending w, { socket with pending := [] })

/-! ## Event engine -/

/-- Modelled from the spec: the event list of the external discrete-event engine,
ordered by timestamp, "events with equal timestamps are processed in the order
they were scheduled": a new event goes behind every queued event whose
timestamp is not later than its own. -/
def insertEvent (e : Event) : List Event → List Event
  | [] => [e]
  | x :: xs => if x.ts ≤ e.ts then x :: insertEvent e xs else e :: x :: xs

/-- Modelled from the spec: `Simulator::Schedule (delay, impl)` of the external
engine queues the event at the current time plus the delay. -/
def Schedule (delay : Time) (impl : EventImpl) (w : World) : World :=
  { w with events := insertEvent ⟨w.now + delay, impl⟩ w.events }

/-- Modelled from the spec: `Simulator::Stop (delay)` of the external engine; the
stop is an event like any other. -/
def Stop (delay : Time) (w : World) : World :=
  Schedule delay EventImpl.stop w

/-! ## Doubles and their six-digit rendering -/

/-- Rounding of a rational to the nearest integer, a tie going to the even
neighbour. -/
def roundHalfEven (q : ℚ) : Int :=
  if q - ⌊q⌋ < 1 / 2 then ⌊q⌋
  else if 1 / 2 < q - ⌊q⌋ then ⌊q⌋ + 1
  else if ⌊q⌋ % 2 = 0 then ⌊q⌋ else ⌊q⌋ + 1

/-- The power `b ^ k` for an integer exponent. -/
def scale (b : Nat) (k : Int) : ℚ :=
  if 0 ≤ k then ((b ^ k.toNat : Nat) : ℚ) else 1 / ((b ^ (-k).toNat : Nat) : ℚ)

/-- Upward search for the exponent of `q` in base `b`: from a `k` with
`b ^ k ≤ q`, the exponent is raised while the next power is still at most `q`. -/
def expUp (b : Nat) (q : ℚ) : Nat → Int → Int
  | 0, k => k
  | fuel + 1, k => if scale b (k + 1) ≤ q then expUp b q fuel (k + 1) else k

/-- Downward search for the exponent of `q` in base `b`: the exponent is lowered
until `b ^ k ≤ q`. -/
def expDown (b : Nat) (q : ℚ) : Nat → Int → Int
  | 0, k => k
  | fuel + 1, k => if scale b k ≤ q then k else expDown b q fuel (k - 1)

/-- Exponent of a positive rational in base `b`: the `k` with
`b ^ k ≤ q < b ^ (k + 1)`. The numerator and the denominator bound the number
of search steps. -/
def floorLog (b : Nat) (q : ℚ) : Int :=
  if 1 ≤ q then expUp b q q.num.natAbs 0 else expDown b q q.den (-1)

/-- Rounding of `q` to the nearest multiple of `b ^ k`, ties to even. -/
def roundAt (b : Nat) (k : Int) (q : ℚ) : ℚ :=
  (roundHalfEven (q / scale b k) : ℚ) * scale b k

/-- The `double` nearest to a rational: 53 significant bits, ties to even, as
an arithmetic operation on doubles delivers its result. Overflow and subnormal
numbers, which the values of this program never reach, are left out. -/
def toDouble (q : ℚ) : ℚ :=
  if q = 0 then 0 else roundAt 2 (floorLog 2 |q| - 52) q

/-- The number an output stream writes for a `double` with its default
formatting: six significant decimal digits, ties to even. -/
def sixDigits (q : ℚ) : ℚ :=
  if q = 0 then 0 else roundAt 10 (floorLog 10 |q| - 5) q

/-! ## Periodic sampling -/

/-- Member `RoutingExperiment::CheckThroughput`. `intervalTime` is the local constant of
the source (`1.0` seconds there). The product `bytesTotal * 8.0` is exact in a
`double`, the division by 1000 rounds, and the stream writes `kbs` and `m_txp`
with six significant digits. -/
def CheckThroughput (intervalTime : Time) (w : World) : World :=
  let kbs : ℚ := toDouble (((w.bytesTotal : ℚ) * 8) / 1000)
  let w := { w with bytesTotal := 0 }
  let w := { w with csv := w.csv ++
    [({ SimulationSecond := w.now, ReceiveRate := sixDigits kbs,
        PacketsReceived := w.packetsReceived,
        NumberOfSinks := w.m_nSinks, RoutingProtocol := w.m_protocolName,
        TransmissionPower := sixDigits w.m_txp } : Row)] }
  let w := { w with packetsReceived := 0 }
  Schedule intervalTime EventImpl.checkThroughput w

/-- What the engine does when it invokes an event. -/
def invoke (intervalTime : Time) (impl : EventImpl) (w : World) : World :=
  match impl with
  | EventImpl.checkThroughput => CheckThroughput intervalTime w
  | EventImpl.stop => { w with stopped := true }
  | EventImpl.receivePacket socket => (ReceivePacket socket w).1

/-- Modelled from the spec: `ProcessOneEvent` of the external engine: the earliest
event leaves the queue, the clock moves to its timestamp, and it is invoked. -/
def ProcessOneEvent (intervalTime : Time) (w : World) : World :=
  match w.events with
  | [] => w
  | e :: rest => invoke intervalTime e.impl { w with now := e.ts, events := rest }

/-- Modelled from the spec: `Simulator::Run` of the external engine: events are
processed one at a time while the queue is not empty and no stop was processed.
`none` means the fuel ran out before the loop ended. -/
def SimulatorRun (intervalTime : Time) : Nat → World → Option World
  | 0, w => if w.stopped = true ∨ w.events = [] then some w else none
  | fuel + 1, w =>
      if w.stopped = true ∨ w.events = [] then some w
      else SimulatorRun intervalTime fuel (ProcessOneEvent intervalTime w)

/-! ## Traffic flows -/

/-- Container access `NodeContainer::Get (i)` and `Ipv4InterfaceContainer::GetAddress (i)`: an
index outside the container is reported as a fault of its own. -/
def Get {α : Type} (c : List α) (i : Nat) (w : World) : Except (Fault × World) α :=
  match c.get? i with
  | some x => .ok x
  | none => .error (Fault.indexOutOfRange i c.length, w)

/-- Member `RoutingExperiment::SetupPacketReceive`: a socket on `node`, bound to
`addr` and the experiment's port. -/
def SetupPacketReceive (addr : Ipv4Address) (node : Node) (w : World) : Socket :=
  { node := node, addr := addr, port := w.port, pending := [] }

/-- Body of the `for (int i = 0; i < nSinks; i++)` loop of `Run`. -/
def flowBody (adhocNodes : List Node) (adhocInterfaces : List Ipv4Address)
    (TotalTime : Time) (nSinks i : Nat) (w : World) : Outcome := do
  let addr ← Get adhocInterfaces i w
  let node ← Get adhocNodes i w
  let sink := SetupPacketReceive addr node w
  let remote ← Get adhocInterfaces i w
  let sender ← Get adhocNodes (i + nSinks) w
  pure { w with flows := w.flows ++
    [({ sink := sink, sender := sender, remoteAddr := remote, remotePort := w.port,
        start := Seconds 0, stop := TotalTime } : Flow)] }

/-- The flow loop: `count` iterations are left and the loop variable is `i`. -/
def flowLoop (adhocNodes : List Node) (adhocInterfaces : List Ipv4Address)
    (TotalTime : Time) (nSinks : Nat) : Nat → Nat → World → Outcome
  | 0, _, w => .ok w
  | count + 1, i, w =>
      match flowBody adhocNodes adhocInterfaces TotalTime nSinks i w with
      | .ok w1 => flowLoop adhocNodes adhocInterfaces TotalTime nSinks count (i + 1) w1
      | .error e => .error e

/-! ## The run -/

/-- Opening assignments of `Run`: the arguments are stored and the protocol name
gets its placeholder. -/
def setMembers (nSinks : Int) (txp : ℚ) (w : World) : World :=
  { w with m_nSinks := nSinks, m_txp := txp, m_protocolName := "protocol" }

/-- Node creation `adhocNodes.Create (nWifis)`: the engine numbers the nodes from
zero. -/
def Create (nWifis : Nat) : List Node := List.range nWifis

/-- Everything `Run` does before `CheckThroughput ()` is first called.
`nWifis` and `TotalTime` are the local constants of the source (`10` and `60.0`
seconds there); `adhocInterfaces` is the container that
`addressAdhoc.Assign (adhocDevices)` returned. -/
def setup (nWifis : Nat) (TotalTime : Time) (adhocInterfaces : List Ipv4Address)
    (nSinks : Int) (txp : ℚ) (w : World) : Outcome := do
  let w := setMembers nSinks txp w
  let adhocNodes := Create nWifis
  let w ← selectProtocol w
  let w := installStack adhocNodes w
  flowLoop adhocNodes adhocInterfaces TotalTime nSinks.toNat nSinks.toNat 0 w

/-- Modelled from the spec: the deliveries of the external network engine, each
the time at which a sink socket's receive callback fires and the socket with the
datagrams then queued on it. They are queued ahead of the sampling events, so
that "PacketSink invocations always occur before any SampleRecorder tick
scheduled at a later or equal simulated time". -/
def scheduleArrivals (arrivals : List (Time × Socket)) (w : World) : World :=
  arrivals.foldl (fun w a => Schedule a.1 (EventImpl.receivePacket a.2) w) w

/-- Member `RoutingExperiment::Run`. The result is `none` when the fuel given to the
engine loop does not suffice. -/
def Run (nWifis : Nat) (TotalTime intervalTime : Time) (adhocInterfaces : List Ipv4Address)
    (arrivals : List (Time × Socket)) (fuel : Nat) (nSinks : Int) (txp : ℚ)
    (w : World) : Option Outcome :=
  match setup nWifis TotalTime adhocInterfaces nSinks txp w with
  | .error e => some (.error e)
  | .ok w =>
      let w := scheduleArrivals arrivals w
      let w := CheckThroughput intervalTime w
      let w := Stop TotalTime w
      (SimulatorRun intervalTime fuel w).map Except.ok

/-- Addresses `10.1.1.1`, `10.1.1.2`, ... of `n` devices, the way `Assign` hands
them out from the base `10.1.1.0` set in `Run`. -/
def sampleInterfaces (n : Nat) : List Ipv4Address :=
  (List.range n).map (fun i => 167837953 + i)

/-- Entry point `main` with the constants of the source: 10 nodes, a horizon of
60 s, a sample every second, 2 sinks and 27 dBm. The header line it writes
first is not a sample row and is not kept. -/
def main (m_protocol : Nat) (arrivals : List (Time × Socket)) (fuel : Nat) : Option Outcome :=
  Run 10 (Seconds 60) (Seconds 1) (sampleInterfaces 10) arrivals fuel 2 27 (init m_protocol)

/-- The state a run ended in, for reading off a finished run; a run that aborted
or ran out of fuel reads as the constructor state. -/
def resultOf (o : Option Outcome) : World :=
  match o with
  | some (.ok w) => w
  | _ => init 0

/-- Whether a run went through to the end of the engine loop. -/
def completed (o : Option Outcome) : Bool :=
  match o with
  | some (.ok _) => true
  | _ => false

/-- Bytes queued on a list of sockets. -/
def bytesOf (sockets : List Socket) : Nat :=
  (sockets.map (fun socket => socket.pending.sum)).sum

/-- Datagrams queued on a list of sockets. -/
def datagramsOf (sockets : List Socket) : Nat :=
  (sockets.map (fun socket => socket.pending.length)).sum

/-- Queue entries of a list of deliveries, in the order given. -/
def receiveEvents (arrivals : List (Time × Socket)) : List Event :=
  arrivals.map (fun a => ⟨a.1, EventImpl.receivePacket a.2⟩)

/-- The fault a stage aborted with, if it aborted. -/
def faultOf (o : Outcome) : Option Fault :=
  match o with
  | .error e => some e.1
  | .ok _ => none

/-- The flow expected of iteration `i` of the flow loop over nodes numbered from
zero: node `i` receives on its own address and the experiment's port, node
`i + nSinks` sends to that address and port, from time zero to `TotalTime`. -/
def pairedFlow (adhocInterfaces : List Ipv4Address) (port : Nat) (TotalTime : Time)
    (nSinks i : Nat) : Flow :=
  { sink := { node := i, addr := adhocInterfaces.getD i 0, port := port, pending := [] },
    sender := i + nSinks, remoteAddr := adhocInterfaces.getD i 0, remotePort := port,
    start := 0, stop := TotalTime }

/-- Whether an event is a delivery to a sink socket. -/
def isArrival (e : Event) : Bool :=
  match e.impl with
  | EventImpl.receivePacket _ => true
  | _ => false

/-- Number of rows a completed run writes with sampling interval `d` and horizon
`H`: one per multiple of `d` below `H`, and one more when `H = d`, where the tick
queued by the first call of `CheckThroughput` stands ahead of the stop event. -/
def sampleCount (d H : Nat) : Nat :=
  if H = d then 2 else (H + d - 1) / d

/-- Datagrams a queued event will hand to `ReceivePacket`. -/
def datagramsIn (e : Event) : Nat :=
  match e.impl with
  | EventImpl.receivePacket socket => socket.pending.length
  | _ => 0

/-- Datagrams waiting in deliveries that are still queued. -/
def queuedDatagrams (q : List Event) : Nat :=
  (q.map datagramsIn).sum

/-- Bookkeeping of datagrams: those written to rows, those counted but not yet
written, and those not yet delivered add up to `total`. -/
def Conserved (total : Nat) (w : World) : Prop :=
  (w.csv.map (fun r => r.PacketsReceived)).sum + w.packetsReceived
    + queuedDatagrams w.events = total

/-- Deliveries of the end-to-end scenario: at each of the seconds 0, 1, 2, 3, 4
one 1000-byte datagram reaches the sink on node 0 and one the sink on node 1. -/
def scenarioArrivals : List (Time × Socket) :=
  (List.range 5).flatMap (fun s =>
    [(Seconds s, ⟨0, 167837953, 9, [1000]⟩), (Seconds s, ⟨1, 167837954, 9, [1000]⟩)])

/-- Whether a delivery stamped `t` is processed before tick number `j`, the tick
stamped `j * d`: tick 0 is called before the clock starts and has nothing
before it; a later tick has before it every delivery stamped no later than
itself. -/
def beforeTick (d j : Nat) (t : Time) : Bool :=
  decide (j ≠ 0 ∧ t ≤ j * d)

/-- Datagrams of the queued deliveries whose timestamp satisfies `p`. -/
def countWhere (p : Time → Bool) (q : List Event) : Nat :=
  queuedDatagrams (q.filter (fun x => p x.ts))

/-- Every row written so far carries the name `name`, which is also the current
protocol name, and at least one row has been written. -/
def RowsNamed (name : String) (w : World) : Prop :=
  w.m_protocolName = name ∧ w.csv ≠ [] ∧ ∀ r ∈ w.csv, r.RoutingProtocol = name

/-! ## The ping application of `aodv_example.cc` -/

/-- Ping application of `aodv_example.cc`: the node it runs on, the address it
pings, and the times at which it starts and stops. The times are signed, as the
engine's time values are. -/
structure PingApplication where
  node : Node
  remote : Ipv4Address
  start : Int
  stop : Int
deriving DecidableEq

/-- Method `AodvExample::InstallApplications` of `aodv_example.cc`: a ping to the
address of the last node is installed on node 0, started at `Seconds (0)` and
stopped at `Seconds (totalTime) - Seconds (0.001)`. The index `size - 1` is
computed on `uint32_t`; an index outside a container gives `none`. -/
def AodvExample.InstallApplications (size : Nat) (totalTime : Time) (nodes : List Node)
    (interfaces : List Ipv4Address) : Option PingApplication :=
  match interfaces.get? ((size + UINT32 - 1) % UINT32), nodes.get? 0 with
  | some remote, some node =>
      some { node := node, remote := remote, start := 0, stop := (totalTime : Int) - 1000000 }
  | _, _ => none

/-! ## Frame lemmas -/

theorem eq_of_completed {o : Option Outcome} (h : completed o = true) :
    o = some (.ok (resultOf o)) := by
  unfold completed at h
  split at h
  · rfl
  · cases h

theorem receiveLoop_frame (l : List Nat) (w : World) :
    ∃ b p, receiveLoop l w = { w with bytesTotal := b, packetsReceived := p } := by
  induction l generalizing w with
  | nil => exact ⟨w.bytesTotal, w.packetsReceived, rfl⟩
  | cons size rest ih =>
      obtain ⟨b, p, h⟩ := ih { w with bytesTotal := (w.bytesTotal + size) % UINT32,
                                      packetsReceived := (w.packetsReceived + 1) % UINT32 }
      exact ⟨b, p, by rw [receiveLoop, h]⟩

theorem flowBody_frame {adhocNodes : List Node} {adhocInterfaces : List Ipv4Address}
    {TotalTime : Time} {nSinks i : Nat} {w w1 : World}
    (h : flowBody adhocNodes adhocInterfaces TotalTime nSinks i w = .ok w1) :
    ∃ fl, w1 = { w with flows := fl } := by
  unfold flowBody at h
  simp only [bind, Except.bind, pure, Except.pure] at h
  split at h
  · cases h
  · split at h
    · cases h
    · split at h
      · cases h
      · split at h
        · cases h
        · simp only [Except.ok.injEq] at h
          exact ⟨_, h.symm⟩

theorem flowLoop_frame {adhocNodes : List Node} {adhocInterfaces : List Ipv4Address}
    {TotalTime : Time} {nSinks : Nat} (count : Nat) {i : Nat} {w w1 : World}
    (h : flowLoop adhocNodes adhocInterfaces TotalTime nSinks count i w = .ok w1) :
    ∃ fl, w1 = { w with flows := fl } := by
  induction count generalizing i w with
  | zero =>
      simp only [flowLoop, Except.ok.injEq] at h
      exact ⟨w.flows, h.symm⟩
  | succ count ih =>
      rw [flowLoop] at h
      cases hb : flowBody adhocNodes adhocInterfaces TotalTime nSinks i w with
      | error e => rw [hb] at h; cases h
      | ok w2 =>
          rw [hb] at h
          obtain ⟨fl2, h2⟩ := flowBody_frame hb
          obtain ⟨fl, h3⟩ := ih h
          exact ⟨fl, by rw [h3, h2]⟩

/-- A property of the state that survives every event taken from the head of
the queue survives the engine loop. -/
theorem SimulatorRun_preserves (intervalTime : Time) (P : World → Prop)
    (hstep : ∀ (w : World) (e : Event) (rest : List Event), w.events = e :: rest → P w →
      P (invoke intervalTime e.impl { w with now := e.ts, events := rest }))
    (fuel : Nat) (w w1 : World) (hw : P w)
    (h : SimulatorRun intervalTime fuel w = some w1) : P w1 := by
  induction fuel generalizing w with
  | zero =>
      unfold SimulatorRun at h
      split at h
      · cases h; exact hw
      · cases h
  | succ fuel ih =>
      unfold SimulatorRun at h
      split at h
      · cases h; exact hw
      · refine ih _ ?_ h
        unfold ProcessOneEvent
        split
        · exact hw
        · rename_i e rest heq
          exact hstep w e rest heq hw

theorem scheduleArrivals_frame (arrivals : List (Time × Socket)) (w : World) :
    ∃ ev, scheduleArrivals arrivals w = { w with events := ev } := by
  unfold scheduleArrivals
  induction arrivals generalizing w with
  | nil => exact ⟨w.events, rfl⟩
  | cons a rest ih =>
      obtain ⟨ev, h⟩ := ih (Schedule a.1 (EventImpl.receivePacket a.2) w)
      exact ⟨ev, by rw [List.foldl_cons, h]; rfl⟩

theorem RowsNamed_CheckThroughput (intervalTime : Time) (name : String) (w : World)
    (h : w.m_protocolName = name ∧ ∀ r ∈ w.csv, r.RoutingProtocol = name) :
    RowsNamed name (CheckThroughput intervalTime w) := by
  refine ⟨h.1, ?_, ?_⟩
  · simp [CheckThroughput, Schedule]
  · intro r hr
    simp only [CheckThroughput, Schedule, List.mem_append, List.mem_singleton] at hr
    rcases hr with hr | hr
    · exact h.2 r hr
    · rw [hr]; exact h.1

theorem RowsNamed_invoke (intervalTime : Time) (name : String) (w : World) (e : Event)
    (rest : List Event) (h : RowsNamed name w) :
    RowsNamed name (invoke intervalTime e.impl { w with now := e.ts, events := rest }) := by
  cases hi : e.impl with
  | checkThroughput => exact RowsNamed_CheckThroughput _ _ _ ⟨h.1, h.2.2⟩
  | stop => exact h
  | receivePacket socket =>
      obtain ⟨b, p, hb⟩ := receiveLoop_frame socket.pending { w with now := e.ts, events := rest }
      simp only [invoke, ReceivePacket, hb]
      exact h

theorem selectProtocol_known (c : Nat) (name : String) (nSinks : Int) (txp : ℚ)
    (hc : (c = 1 ∧ name = "OLSR") ∨ (c = 2 ∧ name = "AODV") ∨
          (c = 3 ∧ name = "DSDV") ∨ (c = 4 ∧ name = "DSR")) :
    ∃ w1, selectProtocol (setMembers nSinks txp (init c)) = .ok w1 ∧
      w1.m_protocolName = name ∧ w1.csv = [] := by
  rcases hc with ⟨rfl, rfl⟩ | ⟨rfl, rfl⟩ | ⟨rfl, rfl⟩ | ⟨rfl, rfl⟩ <;>
    exact ⟨_, rfl, rfl, rfl⟩

/-! ## Counter arithmetic -/

theorem receiveLoop_eq (l : List Nat) (w : World)
    (hb : w.bytesTotal < UINT32) (hp : w.packetsReceived < UINT32) :
    receiveLoop l w =
      { w with bytesTotal := (w.bytesTotal + l.sum) % UINT32,
               packetsReceived := (w.packetsReceived + l.length) % UINT32 } := by
  induction l generalizing w with
  | nil =>
      simp only [receiveLoop, List.sum_nil, List.length_nil, Nat.add_zero,
        Nat.mod_eq_of_lt hb, Nat.mod_eq_of_lt hp]
  | cons size rest ih =>
      have hM : 0 < UINT32 := by decide
      rw [receiveLoop, ih _ (Nat.mod_lt _ hM) (Nat.mod_lt _ hM)]
      have e1 : ((w.bytesTotal + size) % UINT32 + rest.sum) % UINT32
          = (w.bytesTotal + (size :: rest).sum) % UINT32 := by
        rw [List.sum_cons, Nat.add_mod, Nat.mod_mod, ← Nat.add_mod, Nat.add_assoc]
      have e2 : ((w.packetsReceived + 1) % UINT32 + rest.length) % UINT32
          = (w.packetsReceived + (size :: rest).length) % UINT32 := by
        rw [List.length_cons, Nat.add_mod, Nat.mod_mod, ← Nat.add_mod]
        congr 1; omega
      simp only [e1, e2]

theorem bytesOf_cons (socket : Socket) (rest : List Socket) :
    bytesOf (socket :: rest) = socket.pending.sum + bytesOf rest := by
  simp [bytesOf]

theorem datagramsOf_cons (socket : Socket) (rest : List Socket) :
    datagramsOf (socket :: rest) = socket.pending.length + datagramsOf rest := by
  simp [datagramsOf]

/-- Processing a run of queued deliveries adds their bytes and datagrams to the
counters, modulo `2 ^ 32`, moves the clock, and touches nothing else. -/
theorem process_receives (intervalTime : Time) (arrivals : List (Time × Socket))
    (tail : List Event) (w : World)
    (hb : w.bytesTotal < UINT32) (hp : w.packetsReceived < UINT32)
    (hq : w.events = receiveEvents arrivals ++ tail) :
    ∃ t, (ProcessOneEvent intervalTime)^[arrivals.length] w =
      { w with bytesTotal := (w.bytesTotal + bytesOf (arrivals.map Prod.snd)) % UINT32,
               packetsReceived :=
                 (w.packetsReceived + datagramsOf (arrivals.map Prod.snd)) % UINT32,
               now := t, events := tail } := by
  induction arrivals generalizing w with
  | nil =>
      refine ⟨w.now, ?_⟩
      simp only [receiveEvents, List.map_nil, List.nil_append] at hq
      simp only [List.length_nil, Function.iterate_zero, id_eq, List.map_nil, bytesOf,
        datagramsOf, List.sum_nil, Nat.add_zero, Nat.mod_eq_of_lt hb, Nat.mod_eq_of_lt hp, ← hq]
  | cons a rest ih =>
      have hM : 0 < UINT32 := by decide
      have h1 : ProcessOneEvent intervalTime w =
          { w with bytesTotal := (w.bytesTotal + a.2.pending.sum) % UINT32,
                   packetsReceived := (w.packetsReceived + a.2.pending.length) % UINT32,
                   now := a.1, events := receiveEvents rest ++ tail } := by
        unfold ProcessOneEvent
        rw [hq]
        exact receiveLoop_eq _ _ hb hp
      obtain ⟨t, ht⟩ := ih
        { w with bytesTotal := (w.bytesTotal + a.2.pending.sum) % UINT32,
                 packetsReceived := (w.packetsReceived + a.2.pending.length) % UINT32,
                 now := a.1, events := receiveEvents rest ++ tail }
        (Nat.mod_lt _ hM) (Nat.mod_lt _ hM) rfl
      refine ⟨t, ?_⟩
      rw [List.length_cons, Function.iterate_succ_apply, h1, ht]
      have e1 : ((w.bytesTotal + a.2.pending.sum) % UINT32 + bytesOf (rest.map Prod.snd))
            % UINT32 = (w.bytesTotal + bytesOf ((a :: rest).map Prod.snd)) % UINT32 := by
        rw [List.map_cons, bytesOf_cons, Nat.add_mod, Nat.mod_mod, ← Nat.add_mod,
          Nat.add_assoc]
      have e2 : ((w.packetsReceived + a.2.pending.length) % UINT32
            + datagramsOf (rest.map Prod.snd)) % UINT32
          = (w.packetsReceived + datagramsOf ((a :: rest).map Prod.snd)) % UINT32 := by
        rw [List.map_cons, datagramsOf_cons, Nat.add_mod, Nat.mod_mod, ← Nat.add_mod,
          Nat.add_assoc]
      simp only [e1, e2]

/-! ## Flow loop -/

theorem Get_range_ok {n i : Nat} (h : i < n) (w : World) :
    Get (List.range n) i w = .ok i := by
  simp [Get, List.get?_eq_getElem?, List.getElem?_range h]

theorem Get_ok {adhocInterfaces : List Ipv4Address} {i : Nat}
    (h : i < adhocInterfaces.length) (w : World) :
    Get adhocInterfaces i w = .ok (adhocInterfaces.getD i 0) := by
  simp [Get, List.get?_eq_getElem?, List.getElem?_eq_getElem h, List.getD_eq_getElem?_getD]

theorem Get_error {α : Type} {c : List α} {i : Nat} (h : c.length ≤ i) (w : World) :
    Get c i w = .error (Fault.indexOutOfRange i c.length, w) := by
  simp [Get, List.get?_eq_getElem?, List.getElem?_eq_none h]

theorem flowBody_ok {n : Nat} {adhocInterfaces : List Ipv4Address} (TotalTime : Time)
    {nSinks i : Nat} (w : World) (hi : adhocInterfaces.length = n) (h : i + nSinks < n) :
    flowBody (List.range n) adhocInterfaces TotalTime nSinks i w =
      .ok { w with flows := w.flows ++
              [pairedFlow adhocInterfaces w.port TotalTime nSinks i] } := by
  have h1 : i < n := by omega
  have h2 : i < adhocInterfaces.length := by omega
  simp only [flowBody, Get_range_ok h1, Get_range_ok h, Get_ok h2, bind, Except.bind, pure,
    Except.pure]
  rfl

theorem flowBody_error {n : Nat} {adhocInterfaces : List Ipv4Address} (TotalTime : Time)
    {nSinks i : Nat} (w : World) (hi : adhocInterfaces.length = n) (h : n ≤ i + nSinks) :
    ∃ idx, flowBody (List.range n) adhocInterfaces TotalTime nSinks i w =
      .error (Fault.indexOutOfRange idx n, w) ∧ n ≤ idx := by
  by_cases h1 : i < n
  · have h2 : i < adhocInterfaces.length := by omega
    have h3 : (List.range n).length ≤ i + nSinks := by simpa using h
    refine ⟨i + nSinks, ?_, h⟩
    simp only [flowBody, Get_range_ok h1, Get_ok h2, Get_error h3, bind, Except.bind,
      List.length_range]
  · have h2 : adhocInterfaces.length ≤ i := by omega
    refine ⟨i, ?_, by omega⟩
    simp only [flowBody, Get_error h2, bind, Except.bind, hi]

theorem flowLoop_ok {n : Nat} {adhocInterfaces : List Ipv4Address} (TotalTime : Time)
    {nSinks : Nat} (hi : adhocInterfaces.length = n) (count i : Nat) (w : World)
    (h : i + count + nSinks ≤ n) :
    flowLoop (List.range n) adhocInterfaces TotalTime nSinks count i w =
      .ok { w with flows := w.flows ++
              (List.range' i count).map (pairedFlow adhocInterfaces w.port TotalTime nSinks) } := by
  induction count generalizing i w with
  | zero => simp [flowLoop]
  | succ count ih =>
      rw [flowLoop, flowBody_ok TotalTime w hi (by omega)]
      simp only
      rw [ih (i + 1) _ (by omega)]
      simp [List.range'_succ, List.append_assoc]

theorem flowLoop_error {n : Nat} {adhocInterfaces : List Ipv4Address} (TotalTime : Time)
    {nSinks : Nat} (hi : adhocInterfaces.length = n) (count i : Nat) (w : World)
    (h : ∃ j, i ≤ j ∧ j < i + count ∧ n ≤ j + nSinks) :
    ∃ idx w1, flowLoop (List.range n) adhocInterfaces TotalTime nSinks count i w =
        .error (Fault.indexOutOfRange idx n, w1) ∧ n ≤ idx ∧
      w1.now = w.now ∧ w1.csv = w.csv ∧ w1.events = w.events := by
  induction count generalizing i w with
  | zero => obtain ⟨j, h1, h2, -⟩ := h; omega
  | succ count ih =>
      obtain ⟨j, h1, h2, h3⟩ := h
      by_cases hlt : i + nSinks < n
      · obtain ⟨idx, w1, e, hidx, f1, f2, f3⟩ := ih (i + 1)
          { w with flows := w.flows ++ [pairedFlow adhocInterfaces w.port TotalTime nSinks i] }
          ⟨j, by omega, by omega, h3⟩
        refine ⟨idx, w1, ?_, hidx, f1, f2, f3⟩
        rw [flowLoop, flowBody_ok TotalTime w hi hlt]
        exact e
      · obtain ⟨idx, e, hidx⟩ := flowBody_error TotalTime w hi (Nat.le_of_not_lt hlt)
        refine ⟨idx, w, ?_, hidx, rfl, rfl, rfl⟩
        rw [flowLoop, e]

/-! ## Engine loop -/

theorem SimulatorRun_step (intervalTime : Time) (fuel : Nat) (w : World) (e : Event)
    (rest : List Event) (hs : w.stopped = false) (hq : w.events = e :: rest) :
    SimulatorRun intervalTime (fuel + 1) w =
      SimulatorRun intervalTime fuel
        (invoke intervalTime e.impl { w with now := e.ts, events := rest }) := by
  rw [SimulatorRun, if_neg (by simp [hs, hq]), ProcessOneEvent, hq]

theorem SimulatorRun_stopped (intervalTime : Time) (fuel : Nat) (w : World)
    (hs : w.stopped = true) : SimulatorRun intervalTime fuel w = some w := by
  cases fuel <;> simp [SimulatorRun, hs]

/-- Deliveries at the head of the queue are processed one by one; they change
the two counters and the clock only. -/
theorem SimulatorRun_arrivals (intervalTime : Time) (R : List Event) (tail : List Event)
    (w : World) (hR : ∀ x ∈ R, isArrival x = true) (hs : w.stopped = false)
    (hq : w.events = R ++ tail) :
    ∃ b p t, ∀ fuel, SimulatorRun intervalTime (R.length + fuel) w =
      SimulatorRun intervalTime fuel
        { w with bytesTotal := b, packetsReceived := p, now := t, events := tail } := by
  induction R generalizing w with
  | nil =>
      refine ⟨w.bytesTotal, w.packetsReceived, w.now, fun fuel => ?_⟩
      simp only [List.nil_append] at hq
      simp only [List.length_nil, Nat.zero_add, ← hq]
  | cons e R ih =>
      have he : isArrival e = true := hR e (List.mem_cons_self _ _)
      unfold isArrival at he
      split at he
      · rename_i socket hsock
        obtain ⟨b1, p1, h1⟩ := receiveLoop_frame socket.pending
          { w with now := e.ts, events := R ++ tail }
        obtain ⟨b, p, t, h2⟩ := ih
          { w with bytesTotal := b1, packetsReceived := p1, now := e.ts, events := R ++ tail }
          (fun x hx => hR x (List.mem_cons_of_mem _ hx)) hs rfl
        refine ⟨b, p, t, fun fuel => ?_⟩
        rw [List.length_cons, Nat.add_right_comm,
          SimulatorRun_step intervalTime _ w e (R ++ tail) hs hq, hsock]
        simp only [invoke, ReceivePacket, h1]
        exact h2 fuel
      · cases he

theorem insertEvent_before (e y : Event) (R rest : List Event) (h : e.ts < y.ts) :
    ∃ Ra Rb, R = Ra ++ Rb ∧ insertEvent e (R ++ y :: rest) = Ra ++ e :: (Rb ++ y :: rest) := by
  induction R with
  | nil =>
      refine ⟨[], [], rfl, ?_⟩
      simp only [List.nil_append, insertEvent, if_neg (Nat.not_le_of_lt h)]
  | cons x R ih =>
      by_cases hx : x.ts ≤ e.ts
      · obtain ⟨Ra, Rb, h1, h2⟩ := ih
        refine ⟨x :: Ra, Rb, by rw [h1]; rfl, ?_⟩
        show insertEvent e (x :: (R ++ y :: rest)) = x :: (Ra ++ e :: (Rb ++ y :: rest))
        rw [insertEvent, if_pos hx, h2]
      · refine ⟨[], x :: R, rfl, ?_⟩
        show insertEvent e (x :: (R ++ y :: rest)) = e :: x :: (R ++ y :: rest)
        rw [insertEvent, if_neg hx]

theorem insertEvent_after (e y : Event) (R rest : List Event)
    (hR : ∀ x ∈ R, x.ts ≤ e.ts) (hy : y.ts ≤ e.ts) :
    insertEvent e (R ++ y :: rest) = R ++ y :: insertEvent e rest := by
  induction R with
  | nil => simp only [List.nil_append, insertEvent, if_pos hy]
  | cons x R ih =>
      show insertEvent e (x :: (R ++ y :: rest)) = x :: (R ++ y :: insertEvent e rest)
      rw [insertEvent, if_pos (hR x (List.mem_cons_self _ _)),
        ih (fun z hz => hR z (List.mem_cons_of_mem _ hz))]

theorem insertEvent_split (e : Event) (q : List Event) :
    ∃ qa qb, q = qa ++ qb ∧ insertEvent e q = qa ++ e :: qb ∧ ∀ x ∈ qa, x.ts ≤ e.ts := by
  induction q with
  | nil => exact ⟨[], [], rfl, rfl, fun x hx => by cases hx⟩
  | cons x q ih =>
      by_cases hx : x.ts ≤ e.ts
      · obtain ⟨qa, qb, h1, h2, h3⟩ := ih
        refine ⟨x :: qa, qb, by rw [h1]; rfl, ?_, ?_⟩
        · show insertEvent e (x :: q) = x :: (qa ++ e :: qb)
          rw [insertEvent, if_pos hx, h2]
        · intro z hz
          rcases List.mem_cons.mp hz with rfl | hz
          · exact hx
          · exact h3 z hz
      · refine ⟨[], x :: q, rfl, ?_, fun z hz => by cases hz⟩
        show insertEvent e (x :: q) = e :: x :: q
        rw [insertEvent, if_neg hx]

/-- When only deliveries stand between the head of the queue and the stop event,
the loop ends at the stop without writing a row. -/
theorem SimulatorRun_to_stop (intervalTime H : Time) (R rest : List Event) (w : World)
    (hR : ∀ x ∈ R, isArrival x = true) (hs : w.stopped = false)
    (hq : w.events = R ++ ⟨H, EventImpl.stop⟩ :: rest) :
    ∃ w1, (∀ fuel, SimulatorRun intervalTime (R.length + 1 + fuel) w = some w1) ∧
      w1.csv = w.csv ∧ w1.stopped = true ∧ w1.events = rest := by
  obtain ⟨b, p, t, h⟩ := SimulatorRun_arrivals intervalTime R _ w hR hs hq
  refine ⟨{ w with bytesTotal := b, packetsReceived := p, now := H, events := rest,
                   stopped := true }, fun fuel => ?_, rfl, rfl, rfl⟩
  rw [Nat.add_assoc, h (1 + fuel), Nat.add_comm 1 fuel,
    SimulatorRun_step intervalTime fuel
      { w with bytesTotal := b, packetsReceived := p, now := t,
               events := ⟨H, EventImpl.stop⟩ :: rest }
      ⟨H, EventImpl.stop⟩ rest hs rfl]
  exact SimulatorRun_stopped _ _ _ rfl

/-- From a queue in which the tick stamped `k * intervalTime` stands before the
stop event, the loop writes the rows of ticks `k`, `k + 1`, ..., `N - 1` and then
ends at the stop, where `N` is the first tick number whose timestamp reaches
the horizon. -/
theorem SimulatorRun_ticks (d H : Nat) (N : Nat)
    (hgo : ∀ k, 1 ≤ k → k + 1 < N → (k + 1) * d < H)
    (hend : ∀ k, 1 ≤ k → N ≤ k + 1 → H ≤ (k + 1) * d)
    (m k : Nat) (hm : N - k = m) (hk : 1 ≤ k) (hkN : k < N)
    (w : World) (R1 R2 R3 : List Event)
    (hR1 : ∀ x ∈ R1, isArrival x = true) (hR2 : ∀ x ∈ R2, isArrival x = true)
    (hR2H : ∀ x ∈ R2, x.ts ≤ H) (hs : w.stopped = false)
    (hq : w.events = R1 ++ ⟨k * d, EventImpl.checkThroughput⟩ ::
            (R2 ++ ⟨H, EventImpl.stop⟩ :: R3)) :
    ∃ fuel0 w1, (∀ fuel, SimulatorRun d (fuel0 + fuel) w = some w1) ∧
      w1.csv.map (fun r => r.SimulationSecond) =
        w.csv.map (fun r => r.SimulationSecond) ++
          (List.range' k (N - k)).map (fun j => j * d) ∧
      w1.stopped = true := by
  induction m generalizing k w R1 R2 R3 with
  | zero => omega
  | succ m ih =>
      obtain ⟨b, p, t, h⟩ := SimulatorRun_arrivals d R1 _ w hR1 hs hq
      have hstep : ∀ fuel, SimulatorRun d (R1.length + (fuel + 1)) w =
          SimulatorRun d fuel (CheckThroughput d
            { w with bytesTotal := b, packetsReceived := p, now := k * d,
                     events := R2 ++ ⟨H, EventImpl.stop⟩ :: R3 }) := by
        intro fuel
        rw [h (fuel + 1), SimulatorRun_step d fuel
          { w with bytesTotal := b, packetsReceived := p, now := t,
                   events := ⟨k * d, EventImpl.checkThroughput⟩ ::
                     (R2 ++ ⟨H, EventImpl.stop⟩ :: R3) }
          ⟨k * d, EventImpl.checkThroughput⟩ (R2 ++ ⟨H, EventImpl.stop⟩ :: R3) hs rfl]
        rfl
      have hts : k * d + d = (k + 1) * d := (Nat.succ_mul k d).symm
      by_cases hlast : k + 1 < N
      · obtain ⟨Ra, Rb, hsplit, hins⟩ := insertEvent_before
          ⟨k * d + d, EventImpl.checkThroughput⟩ ⟨H, EventImpl.stop⟩ R2 R3
          (show k * d + d < H by rw [hts]; exact hgo k hk hlast)
        have hRa : ∀ x ∈ Ra, isArrival x = true := fun x hx =>
          hR2 x (by rw [hsplit]; exact List.mem_append_left _ hx)
        have hRb : ∀ x ∈ Rb, isArrival x = true := fun x hx =>
          hR2 x (by rw [hsplit]; exact List.mem_append_right _ hx)
        have hRbH : ∀ x ∈ Rb, x.ts ≤ H := fun x hx =>
          hR2H x (by rw [hsplit]; exact List.mem_append_right _ hx)
        obtain ⟨fuel1, w1, hrun, hcsv, hstop⟩ := ih (k + 1) (by omega) (by omega) hlast
          (CheckThroughput d
            { w with bytesTotal := b, packetsReceived := p, now := k * d,
                     events := R2 ++ ⟨H, EventImpl.stop⟩ :: R3 })
          Ra Rb R3 hRa hRb hRbH hs
          (by
            show insertEvent ⟨k * d + d, EventImpl.checkThroughput⟩
                (R2 ++ ⟨H, EventImpl.stop⟩ :: R3) = _
            rw [hins, hts])
        refine ⟨R1.length + (fuel1 + 1), w1, fun fuel => ?_, ?_, hstop⟩
        · rw [show R1.length + (fuel1 + 1) + fuel = R1.length + ((fuel1 + fuel) + 1) by omega,
            hstep]
          exact hrun fuel
        · rw [hcsv, show N - k = (N - (k + 1)) + 1 by omega, List.range'_succ]
          simp [CheckThroughput, Schedule]
      · have hNk : N - k = 1 := by omega
        have hH : H ≤ k * d + d := by rw [hts]; exact hend k hk (by omega)
        have hins := insertEvent_after ⟨k * d + d, EventImpl.checkThroughput⟩
          ⟨H, EventImpl.stop⟩ R2 R3 (fun x hx => Nat.le_trans (hR2H x hx) hH) hH
        obtain ⟨w1, hrun, hcsv, hstop, -⟩ := SimulatorRun_to_stop d H R2
          (insertEvent ⟨k * d + d, EventImpl.checkThroughput⟩ R3)
          (CheckThroughput d
            { w with bytesTotal := b, packetsReceived := p, now := k * d,
                     events := R2 ++ ⟨H, EventImpl.stop⟩ :: R3 })
          hR2 hs hins
        refine ⟨R1.length + (R2.length + 1 + 1), w1, fun fuel => ?_, ?_, hstop⟩
        · rw [show R1.length + (R2.length + 1 + 1) + fuel
              = R1.length + ((R2.length + 1 + fuel) + 1) by omega, hstep]
          exact hrun fuel
        · rw [hcsv, hNk]
          simp [CheckThroughput, Schedule]

theorem lt_ceil_iff (d H j : Nat) (hd : 0 < d) : j < (H + d - 1) / d ↔ j * d < H := by
  rw [Nat.lt_iff_add_one_le, Nat.le_div_iff_mul_le hd, Nat.add_mul, Nat.one_mul]
  omega

theorem mem_insertEvent {e x : Event} {q : List Event} (h : x ∈ insertEvent e q) :
    x = e ∨ x ∈ q := by
  obtain ⟨qa, qb, h1, h2, -⟩ := insertEvent_split e q
  rw [h2] at h
  rw [h1]
  simp only [List.mem_append, List.mem_cons] at h ⊢
  tauto

theorem scheduleArrivals_events (arrivals : List (Time × Socket)) (w : World)
    (hw : ∀ x ∈ w.events, isArrival x = true) :
    ∃ A, scheduleArrivals arrivals w = { w with events := A } ∧
      ∀ x ∈ A, isArrival x = true := by
  unfold scheduleArrivals
  induction arrivals generalizing w with
  | nil => exact ⟨w.events, rfl, hw⟩
  | cons a rest ih =>
      obtain ⟨A, h1, h2⟩ := ih (Schedule a.1 (EventImpl.receivePacket a.2) w) (by
        intro x hx
        rcases mem_insertEvent hx with rfl | hx
        · rfl
        · exact hw x hx)
      exact ⟨A, by rw [List.foldl_cons, h1]; rfl, h2⟩

/-- The engine part of `Run`: once the setup is through, the first call of
`CheckThroughput`, the registration of the stop and the engine loop write rows
stamped `0`, `d`, `2 * d`, ... , `sampleCount d H` of them, and the loop ends. -/
theorem SimulatorRun_rows (d H : Nat) (hd : 0 < d) (hH : 0 < H)
    (arrivals : List (Time × Socket)) (w0 : World)
    (hnow : w0.now = 0) (hev : w0.events = []) (hs : w0.stopped = false) :
    ∃ fuel0 w1,
      (∀ fuel, SimulatorRun d (fuel0 + fuel)
          (Stop H (CheckThroughput d (scheduleArrivals arrivals w0))) = some w1) ∧
      w1.csv.map (fun r => r.SimulationSecond) =
        w0.csv.map (fun r => r.SimulationSecond) ++
          (List.range (sampleCount d H)).map (fun j => j * d) ∧
      w1.stopped = true := by
  obtain ⟨A, hA, hAarr⟩ := scheduleArrivals_events arrivals w0
    (by rw [hev]; intro x hx; cases hx)
  have hqe : (Stop H (CheckThroughput d (scheduleArrivals arrivals w0))).events =
      insertEvent ⟨H, EventImpl.stop⟩ (insertEvent ⟨1 * d, EventImpl.checkThroughput⟩ A) := by
    simp [Stop, Schedule, CheckThroughput, hA, hnow]
  have hcsv0 : (Stop H (CheckThroughput d (scheduleArrivals arrivals w0))).csv.map
      (fun r => r.SimulationSecond) = w0.csv.map (fun r => r.SimulationSecond) ++ [0] := by
    simp [Stop, Schedule, CheckThroughput, hA, hnow]
  have hs0 : (Stop H (CheckThroughput d (scheduleArrivals arrivals w0))).stopped = false := by
    simp [Stop, Schedule, CheckThroughput, hA, hs]
  obtain ⟨Aa, Ab, hsplit, hins, hAa⟩ :=
    insertEvent_split ⟨1 * d, EventImpl.checkThroughput⟩ A
  have hAaarr : ∀ x ∈ Aa, isArrival x = true := fun x hx =>
    hAarr x (by rw [hsplit]; exact List.mem_append_left _ hx)
  have hAbarr : ∀ x ∈ Ab, isArrival x = true := fun x hx =>
    hAarr x (by rw [hsplit]; exact List.mem_append_right _ hx)
  by_cases hdH : d ≤ H
  · -- the tick stamped `d` stands before the stop
    obtain ⟨Aba, Abb, hsplit2, hins2, hAba⟩ := insertEvent_split ⟨H, EventImpl.stop⟩ Ab
    have hq : (Stop H (CheckThroughput d (scheduleArrivals arrivals w0))).events =
        Aa ++ ⟨1 * d, EventImpl.checkThroughput⟩ :: (Aba ++ ⟨H, EventImpl.stop⟩ :: Abb) := by
      rw [hqe, hins, insertEvent_after ⟨H, EventImpl.stop⟩
        ⟨1 * d, EventImpl.checkThroughput⟩ Aa Ab
        (fun x hx => Nat.le_trans (hAa x hx) (by simpa using hdH)) (by simpa using hdH), hins2]
    have hN1 : 1 < sampleCount d H := by
      unfold sampleCount
      split
      · omega
      · rename_i hne
        rw [lt_ceil_iff d H 1 hd]
        omega
    obtain ⟨fuel0, w1, hrun, hcsv, hstop⟩ := SimulatorRun_ticks d H (sampleCount d H)
      (by
        intro k hk hlt
        unfold sampleCount at hlt
        split at hlt
        · omega
        · exact (lt_ceil_iff d H (k + 1) hd).mp hlt)
      (by
        intro k hk hle
        unfold sampleCount at hle
        split at hle
        · rename_i heq
          rw [heq, Nat.add_mul, Nat.one_mul]
          exact Nat.le_add_left _ _
        · have := (lt_ceil_iff d H (k + 1) hd).not.mp (by omega)
          omega)
      (sampleCount d H - 1) 1 rfl (Nat.le_refl 1) hN1 _ Aa Aba Abb hAaarr
      (fun x hx => hAbarr x (by rw [hsplit2]; exact List.mem_append_left _ hx)) hAba hs0 hq
    refine ⟨fuel0, w1, hrun, ?_, hstop⟩
    rw [hcsv, hcsv0, List.append_assoc, List.range_eq_range',
      show sampleCount d H = (sampleCount d H - 1) + 1 by omega, List.range'_succ]
    simp
  · -- the stop stands before the first queued tick
    obtain ⟨Aaa, Aab, hsplit2, hins2⟩ := insertEvent_before ⟨H, EventImpl.stop⟩
      ⟨1 * d, EventImpl.checkThroughput⟩ Aa Ab (by simpa using hdH)
    have hq : (Stop H (CheckThroughput d (scheduleArrivals arrivals w0))).events =
        Aaa ++ ⟨H, EventImpl.stop⟩ :: (Aab ++ ⟨1 * d, EventImpl.checkThroughput⟩ :: Ab) := by
      rw [hqe, hins, hins2]
    obtain ⟨w1, hrun, hcsv, hstop, -⟩ := SimulatorRun_to_stop d H Aaa _ _
      (fun x hx => hAaarr x (by rw [hsplit2]; exact List.mem_append_left _ hx)) hs0 hq
    have hN : sampleCount d H = 1 := by
      unfold sampleCount
      rw [if_neg (by omega)]
      have h1 := (lt_ceil_iff d H 0 hd).mpr (by omega)
      have h2 := (lt_ceil_iff d H 1 hd).not.mpr (by omega)
      omega
    refine ⟨Aaa.length + 1, w1, hrun, ?_, hstop⟩
    rw [hcsv, hcsv0, hN]
    simp [List.range_succ]

/-! ## Setup -/

/-- What the setup leaves behind when it goes through: the clock at zero, an
empty queue, no row, zeroed counters and the arguments stored. -/
theorem setup_frame {nWifis : Nat} {TotalTime : Time} {adhocInterfaces : List Ipv4Address}
    {nSinks : Int} {txp : ℚ} {c : Nat} {w0 : World}
    (h : setup nWifis TotalTime adhocInterfaces nSinks txp (init c) = .ok w0) :
    w0.now = 0 ∧ w0.events = [] ∧ w0.stopped = false ∧ w0.csv = [] ∧
      w0.bytesTotal = 0 ∧ w0.packetsReceived = 0 ∧ w0.m_nSinks = nSinks ∧ w0.m_txp = txp := by
  simp only [setup, bind, Except.bind] at h
  split at h
  · cases h
  · rename_i w1 hsel
    obtain ⟨fl, hfl⟩ := flowLoop_frame _ h
    have h1 : w1.now = 0 ∧ w1.events = [] ∧ w1.stopped = false ∧ w1.csv = [] ∧
        w1.bytesTotal = 0 ∧ w1.packetsReceived = 0 ∧ w1.m_nSinks = nSinks ∧ w1.m_txp = txp := by
      unfold selectProtocol at hsel
      split at hsel <;> cases hsel <;> exact ⟨rfl, rfl, rfl, rfl, rfl, rfl, rfl, rfl⟩
    have h2 : ∀ w : World, (installStack (Create nWifis) w).now = w.now ∧
        (installStack (Create nWifis) w).events = w.events ∧
        (installStack (Create nWifis) w).stopped = w.stopped ∧
        (installStack (Create nWifis) w).csv = w.csv ∧
        (installStack (Create nWifis) w).bytesTotal = w.bytesTotal ∧
        (installStack (Create nWifis) w).packetsReceived = w.packetsReceived ∧
        (installStack (Create nWifis) w).m_nSinks = w.m_nSinks ∧
        (installStack (Create nWifis) w).m_txp = w.m_txp := by
      intro w
      unfold installStack
      split
      · exact ⟨rfl, rfl, rfl, rfl, rfl, rfl, rfl, rfl⟩
      · split <;> exact ⟨rfl, rfl, rfl, rfl, rfl, rfl, rfl, rfl⟩
    obtain ⟨a1, a2, a3, a4, a5, a6, a7, a8⟩ := h2 w1
    obtain ⟨b1, b2, b3, b4, b5, b6, b7, b8⟩ := h1
    rw [hfl]
    exact ⟨a1.trans b1, a2.trans b2, a3.trans b3, a4.trans b4, a5.trans b5, a6.trans b6,
      a7.trans b7, a8.trans b8⟩

/-- The setup goes through for a known protocol code when the nodes suffice for
the sinks. -/
theorem setup_ok (c : Nat) (hc : c = 1 ∨ c = 2 ∨ c = 3 ∨ c = 4) (nWifis : Nat)
    (TotalTime : Time) (adhocInterfaces : List Ipv4Address)
    (hi : adhocInterfaces.length = nWifis) (nSinks : Int) (hk : 2 * nSinks.toNat ≤ nWifis)
    (txp : ℚ) :
    ∃ w0, setup nWifis TotalTime adhocInterfaces nSinks txp (init c) = .ok w0 := by
  have hsel : ∃ w1, selectProtocol (setMembers nSinks txp (init c)) = .ok w1 := by
    rcases hc with rfl | rfl | rfl | rfl <;> exact ⟨_, rfl⟩
  obtain ⟨w1, hsel⟩ := hsel
  have hle : 0 + nSinks.toNat + nSinks.toNat ≤ nWifis := by omega
  have hloop := @flowLoop_ok nWifis adhocInterfaces TotalTime nSinks.toNat hi nSinks.toNat 0
    (installStack (Create nWifis) w1) hle
  exact ⟨_, by simp only [setup, bind, Except.bind, hsel]; exact hloop⟩

theorem insertEvent_perm (e : Event) (q : List Event) : (insertEvent e q).Perm (e :: q) := by
  obtain ⟨qa, qb, h1, h2, -⟩ := insertEvent_split e q
  rw [h2, h1]
  exact List.perm_middle

/-! ## Datagram bookkeeping -/

theorem queuedDatagrams_insertEvent (e : Event) (q : List Event) :
    queuedDatagrams (insertEvent e q) = datagramsIn e + queuedDatagrams q := by
  unfold queuedDatagrams
  rw [((insertEvent_perm e q).map datagramsIn).sum_eq, List.map_cons, List.sum_cons]

theorem receiveLoop_packets (l : List Nat) (w : World)
    (h : w.packetsReceived + l.length < UINT32) :
    (receiveLoop l w).packetsReceived = w.packetsReceived + l.length := by
  induction l generalizing w with
  | nil => rfl
  | cons size rest ih =>
      have h1 : (w.packetsReceived + 1) % UINT32 = w.packetsReceived + 1 :=
        Nat.mod_eq_of_lt (by simp only [List.length_cons] at h; omega)
      rw [receiveLoop, ih _ (by simp only [h1, List.length_cons] at h ⊢; omega)]
      simp only [h1, List.length_cons]
      omega

theorem Conserved_invoke (d : Time) (total : Nat) (htotal : total < UINT32) (w : World)
    (e : Event) (rest : List Event) (hq : w.events = e :: rest) (hw : Conserved total w) :
    Conserved total (invoke d e.impl { w with now := e.ts, events := rest }) := by
  unfold Conserved at hw ⊢
  rw [hq, queuedDatagrams, List.map_cons, List.sum_cons] at hw
  change _ + _ + (datagramsIn e + queuedDatagrams rest) = total at hw
  cases hi : e.impl with
  | checkThroughput =>
      simp only [datagramsIn, hi] at hw
      simp only [invoke, CheckThroughput, Schedule, queuedDatagrams_insertEvent, datagramsIn,
        List.map_append, List.map_cons, List.map_nil, List.sum_append, List.sum_cons,
        List.sum_nil]
      omega
  | stop =>
      simp only [datagramsIn, hi] at hw
      simp only [invoke]
      omega
  | receivePacket socket =>
      simp only [datagramsIn, hi] at hw
      obtain ⟨b, p, hf⟩ := receiveLoop_frame socket.pending { w with now := e.ts, events := rest }
      have hp := receiveLoop_packets socket.pending { w with now := e.ts, events := rest }
        (by show w.packetsReceived + socket.pending.length < UINT32; omega)
      have hcsv : (receiveLoop socket.pending { w with now := e.ts, events := rest }).csv
          = w.csv := by rw [hf]
      have hev : (receiveLoop socket.pending { w with now := e.ts, events := rest }).events
          = rest := by rw [hf]
      simp only [invoke, ReceivePacket, hcsv, hev, hp]
      omega

theorem queuedDatagrams_scheduleArrivals (arrivals : List (Time × Socket)) (w : World) :
    queuedDatagrams (scheduleArrivals arrivals w).events =
      queuedDatagrams w.events + datagramsOf (arrivals.map Prod.snd) := by
  unfold scheduleArrivals
  induction arrivals generalizing w with
  | nil => simp [datagramsOf]
  | cons a rest ih =>
      rw [List.foldl_cons, ih, List.map_cons, datagramsOf_cons]
      simp only [Schedule, queuedDatagrams_insertEvent, datagramsIn]
      omega

/-! ## Ordered queues -/

theorem insertEvent_split_sorted (e : Event) (q : List Event)
    (hs : q.Pairwise (fun a b => a.ts ≤ b.ts)) :
    ∃ qa qb, q = qa ++ qb ∧ insertEvent e q = qa ++ e :: qb ∧
      (∀ x ∈ qa, x.ts ≤ e.ts) ∧ (∀ x ∈ qb, e.ts < x.ts) := by
  induction q with
  | nil => exact ⟨[], [], rfl, rfl, (fun x hx => by cases hx), (fun x hx => by cases hx)⟩
  | cons x q ih =>
      rw [List.pairwise_cons] at hs
      by_cases hx : x.ts ≤ e.ts
      · obtain ⟨qa, qb, h1, h2, h3, h4⟩ := ih hs.2
        refine ⟨x :: qa, qb, by rw [h1]; rfl, ?_, ?_, h4⟩
        · show insertEvent e (x :: q) = x :: (qa ++ e :: qb)
          rw [insertEvent, if_pos hx, h2]
        · intro z hz
          rcases List.mem_cons.mp hz with rfl | hz
          · exact hx
          · exact h3 z hz
      · refine ⟨[], x :: q, rfl, ?_, (fun z hz => by cases hz), ?_⟩
        · show insertEvent e (x :: q) = e :: x :: q
          rw [insertEvent, if_neg hx]
        · intro z hz
          rcases List.mem_cons.mp hz with rfl | hz
          · exact Nat.lt_of_not_le hx
          · exact Nat.lt_of_lt_of_le (Nat.lt_of_not_le hx) (hs.1 z hz)

theorem insertEvent_sorted (e : Event) (q : List Event)
    (hs : q.Pairwise (fun a b => a.ts ≤ b.ts)) :
    (insertEvent e q).Pairwise (fun a b => a.ts ≤ b.ts) := by
  obtain ⟨qa, qb, h1, h2, h3, h4⟩ := insertEvent_split_sorted e q hs
  rw [h1, List.pairwise_append] at hs
  rw [h2, List.pairwise_append, List.pairwise_cons]
  refine ⟨hs.1, ⟨fun z hz => (h4 z hz).le, hs.2.1⟩, ?_⟩
  intro a ha b hb
  rcases List.mem_cons.mp hb with rfl | hb
  · exact h3 a ha
  · exact hs.2.2 a ha b hb

theorem insertEvent_append_of_lt (e y : Event) (R rest : List Event) (h : e.ts < y.ts) :
    insertEvent e (R ++ y :: rest) = insertEvent e R ++ y :: rest := by
  induction R with
  | nil =>
      show insertEvent e (y :: rest) = [e] ++ y :: rest
      rw [insertEvent, if_neg (Nat.not_le_of_lt h)]
      rfl
  | cons x R ih =>
      show insertEvent e (x :: (R ++ y :: rest)) = insertEvent e (x :: R) ++ y :: rest
      by_cases hx : x.ts ≤ e.ts
      · rw [insertEvent, if_pos hx, ih, insertEvent, if_pos hx]; rfl
      · rw [insertEvent, if_neg hx, insertEvent, if_neg hx]; rfl

theorem scheduleArrivals_sorted (arrivals : List (Time × Socket)) (w : World)
    (hs : w.events.Pairwise (fun a b => a.ts ≤ b.ts)) :
    (scheduleArrivals arrivals w).events.Pairwise (fun a b => a.ts ≤ b.ts) ∧
    (scheduleArrivals arrivals w).events.Perm
      (arrivals.map (fun a => ⟨w.now + a.1, EventImpl.receivePacket a.2⟩) ++ w.events) := by
  unfold scheduleArrivals
  induction arrivals generalizing w with
  | nil => exact ⟨hs, by simp⟩
  | cons a rest ih =>
      obtain ⟨h1, h2⟩ := ih (Schedule a.1 (EventImpl.receivePacket a.2) w)
        (insertEvent_sorted _ _ hs)
      refine ⟨h1, ?_⟩
      rw [List.foldl_cons]
      refine h2.trans ?_
      show (rest.map _ ++ insertEvent ⟨w.now + a.1, EventImpl.receivePacket a.2⟩ w.events).Perm _
      refine ((insertEvent_perm _ w.events).append_left _).trans ?_
      rw [List.map_cons]
      exact List.perm_middle

theorem countWhere_append (p : Time → Bool) (q1 q2 : List Event) :
    countWhere p (q1 ++ q2) = countWhere p q1 + countWhere p q2 := by
  simp [countWhere, queuedDatagrams]

theorem countWhere_all (p : Time → Bool) (q : List Event) (h : ∀ x ∈ q, p x.ts = true) :
    countWhere p q = queuedDatagrams q := by
  unfold countWhere
  rw [List.filter_eq_self.mpr h]

theorem countWhere_none (p : Time → Bool) (q : List Event) (h : ∀ x ∈ q, p x.ts = false) :
    countWhere p q = 0 := by
  unfold countWhere
  rw [List.filter_eq_nil_iff.mpr (fun x hx => by simp [h x hx])]
  rfl

theorem countWhere_congr (p1 p2 : Time → Bool) (q : List Event)
    (h : ∀ x ∈ q, p1 x.ts = p2 x.ts) : countWhere p1 q = countWhere p2 q := by
  unfold countWhere
  rw [List.filter_congr (fun x hx => h x hx)]

theorem countWhere_perm (p : Time → Bool) {q1 q2 : List Event} (h : q1.Perm q2) :
    countWhere p q1 = countWhere p q2 := by
  unfold countWhere queuedDatagrams
  exact ((h.filter _).map datagramsIn).sum_eq

/-! ## Counting through the engine loop -/

theorem queuedDatagrams_cons (e : Event) (q : List Event) :
    queuedDatagrams (e :: q) = datagramsIn e + queuedDatagrams q := by
  simp [queuedDatagrams]

theorem queuedDatagrams_append (q1 q2 : List Event) :
    queuedDatagrams (q1 ++ q2) = queuedDatagrams q1 + queuedDatagrams q2 := by
  simp [queuedDatagrams]

/-- Deliveries at the head of the queue add their datagrams to
`packetsReceived`, as long as the counter does not wrap. -/
theorem SimulatorRun_arrivals_count (intervalTime : Time) (R : List Event)
    (tail : List Event) (w : World) (hR : ∀ x ∈ R, isArrival x = true)
    (hs : w.stopped = false) (hq : w.events = R ++ tail)
    (hbound : w.packetsReceived + queuedDatagrams R < UINT32) :
    ∃ b t, ∀ fuel, SimulatorRun intervalTime (R.length + fuel) w =
      SimulatorRun intervalTime fuel
        { w with bytesTotal := b, packetsReceived := w.packetsReceived + queuedDatagrams R,
                 now := t, events := tail } := by
  induction R generalizing w with
  | nil =>
      refine ⟨w.bytesTotal, w.now, fun fuel => ?_⟩
      simp only [List.nil_append] at hq
      simp only [List.length_nil, Nat.zero_add, ← hq, queuedDatagrams, List.map_nil,
        List.sum_nil, Nat.add_zero]
  | cons e R ih =>
      have he : isArrival e = true := hR e (List.mem_cons_self _ _)
      rw [queuedDatagrams_cons] at hbound
      unfold isArrival at he
      split at he
      · rename_i socket hsock
        have hd : datagramsIn e = socket.pending.length := by
          unfold datagramsIn; rw [hsock]
        rw [hd] at hbound
        obtain ⟨b1, p1, h1⟩ := receiveLoop_frame socket.pending
          { w with now := e.ts, events := R ++ tail }
        have hp := receiveLoop_packets socket.pending
          { w with now := e.ts, events := R ++ tail }
          (by show w.packetsReceived + socket.pending.length < UINT32; omega)
        rw [h1] at hp
        have hp1 : p1 = w.packetsReceived + socket.pending.length := hp
        obtain ⟨b, t, h2⟩ := ih
          { w with bytesTotal := b1, packetsReceived := p1, now := e.ts, events := R ++ tail }
          (fun x hx => hR x (List.mem_cons_of_mem _ hx)) hs rfl
          (by show p1 + queuedDatagrams R < UINT32; omega)
        refine ⟨b, t, fun fuel => ?_⟩
        rw [List.length_cons, Nat.add_right_comm,
          SimulatorRun_step intervalTime _ w e (R ++ tail) hs hq, hsock]
        simp only [invoke, ReceivePacket, h1]
        rw [h2 fuel, queuedDatagrams_cons, hd, hp1, Nat.add_assoc]
      · cases he

/-- The stop is reached after the deliveries ahead of it; they end up in
`packetsReceived` and no row is written. -/
theorem SimulatorRun_to_stop_count (intervalTime H : Time) (R rest : List Event) (w : World)
    (hR : ∀ x ∈ R, isArrival x = true) (hs : w.stopped = false)
    (hq : w.events = R ++ ⟨H, EventImpl.stop⟩ :: rest)
    (hbound : w.packetsReceived + queuedDatagrams R < UINT32) :
    ∃ w1, (∀ fuel, SimulatorRun intervalTime (R.length + 1 + fuel) w = some w1) ∧
      w1.csv = w.csv ∧ w1.packetsReceived = w.packetsReceived + queuedDatagrams R := by
  obtain ⟨b, t, h⟩ := SimulatorRun_arrivals_count intervalTime R _ w hR hs hq hbound
  refine ⟨{ w with bytesTotal := b, packetsReceived := w.packetsReceived + queuedDatagrams R,
                   now := H, events := rest, stopped := true }, fun fuel => ?_, rfl, rfl⟩
  rw [Nat.add_assoc, h (1 + fuel), Nat.add_comm 1 fuel,
    SimulatorRun_step intervalTime fuel
      { w with bytesTotal := b, packetsReceived := w.packetsReceived + queuedDatagrams R,
               now := t, events := ⟨H, EventImpl.stop⟩ :: rest }
      ⟨H, EventImpl.stop⟩ rest hs rfl]
  exact SimulatorRun_stopped _ _ _ rfl

/-- The tick chain with its bookkeeping: from a queue in which tick `k` stands
before the stop, the rows written from here on add up to the counter, the
deliveries ahead of tick `k` and the later deliveries stamped no later than the
last tick; the deliveries stamped after the last tick are left in the counter. -/
theorem SimulatorRun_ticks_sum (d H : Nat) (N : Nat)
    (hgo : ∀ k, 1 ≤ k → k + 1 < N → (k + 1) * d < H)
    (hend : ∀ k, 1 ≤ k → N ≤ k + 1 → H ≤ (k + 1) * d)
    (m k : Nat) (hm : N - k = m) (hk : 1 ≤ k) (hkN : k < N)
    (w : World) (R1 R2 R3 : List Event)
    (hR1 : ∀ x ∈ R1, isArrival x = true) (hR2 : ∀ x ∈ R2, isArrival x = true)
    (hR2H : ∀ x ∈ R2, x.ts ≤ H) (hR2s : R2.Pairwise (fun a b => a.ts ≤ b.ts))
    (hR2lo : ∀ x ∈ R2, k * d < x.ts) (hs : w.stopped = false)
    (hq : w.events = R1 ++ ⟨k * d, EventImpl.checkThroughput⟩ ::
            (R2 ++ ⟨H, EventImpl.stop⟩ :: R3))
    (hbound : w.packetsReceived + queuedDatagrams R1 + queuedDatagrams R2 < UINT32) :
    ∃ fuel0 w1, (∀ fuel, SimulatorRun d (fuel0 + fuel) w = some w1) ∧
      (w1.csv.map (fun r => r.PacketsReceived)).sum =
        (w.csv.map (fun r => r.PacketsReceived)).sum + w.packetsReceived
          + queuedDatagrams R1 + countWhere (fun t => decide (t ≤ (N - 1) * d)) R2 ∧
      w1.packetsReceived = countWhere (fun t => decide ((N - 1) * d < t)) R2 := by
  induction m generalizing k w R1 R2 R3 with
  | zero => omega
  | succ m ih =>
      obtain ⟨b, t, h⟩ := SimulatorRun_arrivals_count d R1 _ w hR1 hs hq (by omega)
      have hstep : ∀ fuel, SimulatorRun d (R1.length + (fuel + 1)) w =
          SimulatorRun d fuel (CheckThroughput d
            { w with bytesTotal := b, packetsReceived := w.packetsReceived + queuedDatagrams R1,
                     now := k * d, events := R2 ++ ⟨H, EventImpl.stop⟩ :: R3 }) := by
        intro fuel
        rw [h (fuel + 1), SimulatorRun_step d fuel
          { w with bytesTotal := b, packetsReceived := w.packetsReceived + queuedDatagrams R1,
                   now := t,
                   events := ⟨k * d, EventImpl.checkThroughput⟩ ::
                     (R2 ++ ⟨H, EventImpl.stop⟩ :: R3) }
          ⟨k * d, EventImpl.checkThroughput⟩ (R2 ++ ⟨H, EventImpl.stop⟩ :: R3) hs rfl]
        rfl
      have hts : k * d + d = (k + 1) * d := (Nat.succ_mul k d).symm
      have hcsvb : ((CheckThroughput d
            { w with bytesTotal := b, packetsReceived := w.packetsReceived + queuedDatagrams R1,
                     now := k * d, events := R2 ++ ⟨H, EventImpl.stop⟩ :: R3 }).csv.map
              (fun r => r.PacketsReceived)).sum =
          (w.csv.map (fun r => r.PacketsReceived)).sum + (w.packetsReceived
            + queuedDatagrams R1) := by
        simp [CheckThroughput, Schedule]
      by_cases hlast : k + 1 < N
      · have hlt : k * d + d < H := by rw [hts]; exact hgo k hk hlast
        obtain ⟨Ra, Rb, hsplit, hins, hRale, hRbgt⟩ := insertEvent_split_sorted
          ⟨k * d + d, EventImpl.checkThroughput⟩ R2 hR2s
        have hRa : ∀ x ∈ Ra, isArrival x = true := fun x hx =>
          hR2 x (by rw [hsplit]; exact List.mem_append_left _ hx)
        have hRb : ∀ x ∈ Rb, isArrival x = true := fun x hx =>
          hR2 x (by rw [hsplit]; exact List.mem_append_right _ hx)
        have hRbH : ∀ x ∈ Rb, x.ts ≤ H := fun x hx =>
          hR2H x (by rw [hsplit]; exact List.mem_append_right _ hx)
        have hRbs : Rb.Pairwise (fun a b => a.ts ≤ b.ts) := by
          rw [hsplit, List.pairwise_append] at hR2s
          exact hR2s.2.1
        have hqd : queuedDatagrams R2 = queuedDatagrams Ra + queuedDatagrams Rb := by
          rw [hsplit, queuedDatagrams_append]
        have hmul : (k + 1) * d ≤ (N - 1) * d := Nat.mul_le_mul_right d (by omega)
        obtain ⟨fuel1, w1, hrun, hsum, hleft⟩ := ih (k + 1) (by omega) (by omega) hlast
          (CheckThroughput d
            { w with bytesTotal := b, packetsReceived := w.packetsReceived + queuedDatagrams R1,
                     now := k * d, events := R2 ++ ⟨H, EventImpl.stop⟩ :: R3 })
          Ra Rb R3 hRa hRb hRbH hRbs
          (fun x hx => by rw [← hts]; exact hRbgt x hx) hs
          (by
            show insertEvent ⟨k * d + d, EventImpl.checkThroughput⟩
                (R2 ++ ⟨H, EventImpl.stop⟩ :: R3) = _
            rw [insertEvent_append_of_lt _ _ _ _ hlt, hins, hts, List.append_assoc]
            rfl)
          (by
            show 0 + queuedDatagrams Ra + queuedDatagrams Rb < UINT32
            omega)
        refine ⟨R1.length + (fuel1 + 1), w1, fun fuel => ?_, ?_, ?_⟩
        · rw [show R1.length + (fuel1 + 1) + fuel = R1.length + ((fuel1 + fuel) + 1) by omega,
            hstep]
          exact hrun fuel
        · rw [hsum, hcsvb]
          have hall : countWhere (fun t => decide (t ≤ (N - 1) * d)) Ra
              = queuedDatagrams Ra :=
            countWhere_all _ Ra (fun x hx =>
              decide_eq_true (Nat.le_trans (by rw [← hts]; exact hRale x hx) hmul))
          have h1 : countWhere (fun t => decide (t ≤ (N - 1) * d)) R2 =
              queuedDatagrams Ra + countWhere (fun t => decide (t ≤ (N - 1) * d)) Rb := by
            rw [hsplit, countWhere_append, hall]
          have h0 : (CheckThroughput d
              { w with bytesTotal := b,
                       packetsReceived := w.packetsReceived + queuedDatagrams R1,
                       now := k * d,
                       events := R2 ++ ⟨H, EventImpl.stop⟩ :: R3 }).packetsReceived = 0 := rfl
          rw [h1, h0]
          omega
        · have hnone : countWhere (fun t => decide ((N - 1) * d < t)) Ra = 0 :=
            countWhere_none _ Ra (fun x hx =>
              decide_eq_false (Nat.not_lt.mpr
                (Nat.le_trans (by rw [← hts]; exact hRale x hx) hmul)))
          rw [hleft, hsplit, countWhere_append, hnone, Nat.zero_add]
      · have hNk : N - 1 = k := by omega
        have hH : H ≤ k * d + d := by rw [hts]; exact hend k hk (by omega)
        have hins := insertEvent_after ⟨k * d + d, EventImpl.checkThroughput⟩
          ⟨H, EventImpl.stop⟩ R2 R3 (fun x hx => Nat.le_trans (hR2H x hx) hH) hH
        obtain ⟨w1, hrun, hcsv, hleft⟩ := SimulatorRun_to_stop_count d H R2
          (insertEvent ⟨k * d + d, EventImpl.checkThroughput⟩ R3)
          (CheckThroughput d
            { w with bytesTotal := b, packetsReceived := w.packetsReceived + queuedDatagrams R1,
                     now := k * d, events := R2 ++ ⟨H, EventImpl.stop⟩ :: R3 })
          hR2 hs hins
          (by
            show 0 + queuedDatagrams R2 < UINT32
            omega)
        refine ⟨R1.length + (R2.length + 1 + 1), w1, fun fuel => ?_, ?_, ?_⟩
        · rw [show R1.length + (R2.length + 1 + 1) + fuel
              = R1.length + ((R2.length + 1 + fuel) + 1) by omega, hstep]
          exact hrun fuel
        · have hnone : countWhere (fun t => decide (t ≤ k * d)) R2 = 0 :=
            countWhere_none _ R2 (fun x hx =>
              decide_eq_false (Nat.not_le.mpr (hR2lo x hx)))
          rw [hcsv, hcsvb, hNk, hnone]
          omega
        · have hall : countWhere (fun t => decide (k * d < t)) R2 = queuedDatagrams R2 :=
            countWhere_all _ R2 (fun x hx => decide_eq_true (hR2lo x hx))
          rw [hleft, hNk, hall]
          show 0 + queuedDatagrams R2 = queuedDatagrams R2
          omega

theorem beforeTick_zero (d : Nat) (t : Time) : beforeTick d 0 t = false := by
  simp [beforeTick]

theorem beforeTick_pos (d j : Nat) (hj : j ≠ 0) (t : Time) :
    beforeTick d j t = decide (t ≤ j * d) := by
  simp [beforeTick, hj]

theorem countWhere_receive (p : Time → Bool) (arrivals : List (Time × Socket)) :
    countWhere p (arrivals.map (fun a => ⟨0 + a.1, EventImpl.receivePacket a.2⟩)) =
      datagramsOf ((arrivals.filter (fun a => p a.1)).map Prod.snd) := by
  induction arrivals with
  | nil => rfl
  | cons a rest ih =>
      have hc : countWhere p (⟨0 + a.1, EventImpl.receivePacket a.2⟩ ::
          rest.map (fun a => ⟨0 + a.1, EventImpl.receivePacket a.2⟩)) =
          (if p a.1 = true then a.2.pending.length else 0) +
            countWhere p (rest.map (fun a => ⟨0 + a.1, EventImpl.receivePacket a.2⟩)) := by
        unfold countWhere
        by_cases hp : p a.1 = true
        · rw [List.filter_cons_of_pos (by simpa using hp), queuedDatagrams_cons, if_pos hp]
          rfl
        · rw [List.filter_cons_of_neg (by simpa using hp), if_neg hp, Nat.zero_add]
      rw [List.map_cons, hc, ih]
      by_cases hp : p a.1 = true
      · rw [if_pos hp]
        simp [List.filter_cons, hp, datagramsOf_cons]
      · rw [if_neg hp]
        simp [List.filter_cons, hp]

/-- Datagram counts over the queue that `scheduleArrivals` builds from an empty
queue at time zero are counts over the schedule itself. -/
theorem countWhere_scheduleArrivals (p : Time → Bool) (arrivals : List (Time × Socket))
    (w : World) (hnow : w.now = 0) (hev : w.events = []) :
    countWhere p (scheduleArrivals arrivals w).events =
      datagramsOf ((arrivals.filter (fun a => p a.1)).map Prod.snd) := by
  have h := (scheduleArrivals_sorted arrivals w (by rw [hev]; exact List.Pairwise.nil)).2
  rw [hev, List.append_nil, hnow] at h
  rw [countWhere_perm p h, countWhere_receive]

/-- The engine part of `Run` with its bookkeeping: the rows add up to the
datagrams of the deliveries processed before the last tick, and the deliveries
processed after it, up to the stop, are left in `packetsReceived`. -/
theorem SimulatorRun_rows_sum (d H : Nat) (hd : 0 < d) (hH : 0 < H)
    (arrivals : List (Time × Socket)) (w0 : World)
    (hnow : w0.now = 0) (hev : w0.events = []) (hs : w0.stopped = false)
    (hp : w0.packetsReceived = 0) (hcsv : w0.csv = [])
    (htotal : datagramsOf (arrivals.map Prod.snd) < UINT32) :
    ∃ fuel0 w1,
      (∀ fuel, SimulatorRun d (fuel0 + fuel)
          (Stop H (CheckThroughput d (scheduleArrivals arrivals w0))) = some w1) ∧
      (w1.csv.map (fun r => r.PacketsReceived)).sum =
        countWhere (beforeTick d (sampleCount d H - 1)) (scheduleArrivals arrivals w0).events ∧
      w1.packetsReceived =
        countWhere (fun t => !beforeTick d (sampleCount d H - 1) t && decide (t ≤ H))
          (scheduleArrivals arrivals w0).events := by
  obtain ⟨A, hA, hAarr⟩ := scheduleArrivals_events arrivals w0
    (by rw [hev]; intro x hx; cases hx)
  have hAs : A.Pairwise (fun a b => a.ts ≤ b.ts) := by
    have := (scheduleArrivals_sorted arrivals w0 (by rw [hev]; exact List.Pairwise.nil)).1
    rw [hA] at this
    exact this
  have hAqd : queuedDatagrams A = datagramsOf (arrivals.map Prod.snd) := by
    have := queuedDatagrams_scheduleArrivals arrivals w0
    rw [hA, hev] at this
    simpa [queuedDatagrams] using this
  have hAev : (scheduleArrivals arrivals w0).events = A := by rw [hA]
  rw [hAev]
  have hqe : (Stop H (CheckThroughput d (scheduleArrivals arrivals w0))).events =
      insertEvent ⟨H, EventImpl.stop⟩ (insertEvent ⟨1 * d, EventImpl.checkThroughput⟩ A) := by
    simp [Stop, Schedule, CheckThroughput, hA, hnow]
  have hcsv0 : ((Stop H (CheckThroughput d (scheduleArrivals arrivals w0))).csv.map
      (fun r => r.PacketsReceived)).sum = 0 := by
    simp [Stop, Schedule, CheckThroughput, hA, hcsv, hp]
  have hcsv1 : (Stop H (CheckThroughput d (scheduleArrivals arrivals w0))).csv =
      (CheckThroughput d (scheduleArrivals arrivals w0)).csv := rfl
  have hp0 : (Stop H (CheckThroughput d (scheduleArrivals arrivals w0))).packetsReceived
      = 0 := rfl
  have hs0 : (Stop H (CheckThroughput d (scheduleArrivals arrivals w0))).stopped = false := by
    simp [Stop, Schedule, CheckThroughput, hA, hs]
  obtain ⟨Aa, Ab, hsplit, hins, hAa, hAb⟩ :=
    insertEvent_split_sorted ⟨1 * d, EventImpl.checkThroughput⟩ A hAs
  have hAaarr : ∀ x ∈ Aa, isArrival x = true := fun x hx =>
    hAarr x (by rw [hsplit]; exact List.mem_append_left _ hx)
  have hAbarr : ∀ x ∈ Ab, isArrival x = true := fun x hx =>
    hAarr x (by rw [hsplit]; exact List.mem_append_right _ hx)
  have hAas : Aa.Pairwise (fun a b => a.ts ≤ b.ts) := by
    rw [hsplit, List.pairwise_append] at hAs; exact hAs.1
  have hAbs : Ab.Pairwise (fun a b => a.ts ≤ b.ts) := by
    rw [hsplit, List.pairwise_append] at hAs; exact hAs.2.1
  have hAa1 : ∀ x ∈ Aa, x.ts ≤ 1 * d := hAa
  have hAb1 : ∀ x ∈ Ab, 1 * d < x.ts := hAb
  by_cases hdH : d ≤ H
  · obtain ⟨Aba, Abb, hsplit2, hins2, hAba, hAbb⟩ :=
      insertEvent_split_sorted ⟨H, EventImpl.stop⟩ Ab hAbs
    have hAbaH : ∀ x ∈ Aba, x.ts ≤ H := hAba
    have hAbbH : ∀ x ∈ Abb, H < x.ts := hAbb
    have hq : (Stop H (CheckThroughput d (scheduleArrivals arrivals w0))).events =
        Aa ++ ⟨1 * d, EventImpl.checkThroughput⟩ :: (Aba ++ ⟨H, EventImpl.stop⟩ :: Abb) := by
      rw [hqe, hins, insertEvent_after ⟨H, EventImpl.stop⟩
        ⟨1 * d, EventImpl.checkThroughput⟩ Aa Ab
        (fun x hx => Nat.le_trans (hAa x hx) (by simpa using hdH)) (by simpa using hdH), hins2]
    have hN1 : 1 < sampleCount d H := by
      unfold sampleCount
      split
      · omega
      · rename_i hne
        rw [lt_ceil_iff d H 1 hd]
        omega
    have hNH : (sampleCount d H - 1) * d ≤ H := by
      unfold sampleCount
      split
      · rename_i heq; rw [heq]; simp
      · have := (lt_ceil_iff d H ((H + d - 1) / d - 1) hd).mp (by
          unfold sampleCount at hN1; rw [if_neg (by assumption)] at hN1; omega)
        exact this.le
    have h1N : 1 * d ≤ (sampleCount d H - 1) * d := Nat.mul_le_mul_right d (by omega)
    have hqd : queuedDatagrams A = queuedDatagrams Aa + queuedDatagrams Aba
        + queuedDatagrams Abb := by
      rw [hsplit, hsplit2, queuedDatagrams_append, queuedDatagrams_append, Nat.add_assoc]
    obtain ⟨fuel0, w1, hrun, hsum, hleft⟩ := SimulatorRun_ticks_sum d H (sampleCount d H)
      (by
        intro k hk hlt
        unfold sampleCount at hlt
        split at hlt
        · omega
        · exact (lt_ceil_iff d H (k + 1) hd).mp hlt)
      (by
        intro k hk hle
        unfold sampleCount at hle
        split at hle
        · rename_i heq
          rw [heq, Nat.add_mul, Nat.one_mul]
          exact Nat.le_add_left _ _
        · have := (lt_ceil_iff d H (k + 1) hd).not.mp (by omega)
          omega)
      (sampleCount d H - 1) 1 rfl (Nat.le_refl 1) hN1 _ Aa Aba Abb hAaarr
      (fun x hx => hAbarr x (by rw [hsplit2]; exact List.mem_append_left _ hx)) hAbaH
      (by rw [hsplit2, List.pairwise_append] at hAbs; exact hAbs.1)
      (fun x hx => hAb1 x (by rw [hsplit2]; exact List.mem_append_left _ hx)) hs0 hq
      (by rw [hp0]; omega)
    have c1 : countWhere (beforeTick d (sampleCount d H - 1)) A =
        countWhere (fun t => decide (t ≤ (sampleCount d H - 1) * d)) A :=
      countWhere_congr (beforeTick d (sampleCount d H - 1))
        (fun t => decide (t ≤ (sampleCount d H - 1) * d)) A
        (fun x _ => beforeTick_pos d _ (by omega) x.ts)
    have c2 : countWhere (fun t => decide (t ≤ (sampleCount d H - 1) * d)) Aa
        = queuedDatagrams Aa :=
      countWhere_all (fun t => decide (t ≤ (sampleCount d H - 1) * d)) Aa
        (fun x hx => decide_eq_true (Nat.le_trans (hAa1 x hx) h1N))
    have c3 : countWhere (fun t => decide (t ≤ (sampleCount d H - 1) * d)) Abb = 0 :=
      countWhere_none (fun t => decide (t ≤ (sampleCount d H - 1) * d)) Abb
        (fun x hx => decide_eq_false (Nat.not_le.mpr (Nat.lt_of_le_of_lt hNH (hAbbH x hx))))
    have e1 : countWhere
        (fun t => !beforeTick d (sampleCount d H - 1) t && decide (t ≤ H)) Aa = 0 :=
      countWhere_none
        (fun t => !beforeTick d (sampleCount d H - 1) t && decide (t ≤ H)) Aa
        (fun x hx => by
          show (!beforeTick d (sampleCount d H - 1) x.ts && decide (x.ts ≤ H)) = false
          rw [beforeTick_pos d _ (by omega), decide_eq_true (Nat.le_trans (hAa1 x hx) h1N)]
          rfl)
    have e2 : countWhere
        (fun t => !beforeTick d (sampleCount d H - 1) t && decide (t ≤ H)) Abb = 0 :=
      countWhere_none
        (fun t => !beforeTick d (sampleCount d H - 1) t && decide (t ≤ H)) Abb
        (fun x hx => by
          show (!beforeTick d (sampleCount d H - 1) x.ts && decide (x.ts ≤ H)) = false
          rw [decide_eq_false (Nat.not_le.mpr (hAbbH x hx)), Bool.and_false])
    have e3 : countWhere
        (fun t => !beforeTick d (sampleCount d H - 1) t && decide (t ≤ H)) Aba =
        countWhere (fun t => decide ((sampleCount d H - 1) * d < t)) Aba :=
      countWhere_congr
        (fun t => !beforeTick d (sampleCount d H - 1) t && decide (t ≤ H))
        (fun t => decide ((sampleCount d H - 1) * d < t)) Aba
        (fun x hx => by
          show (!beforeTick d (sampleCount d H - 1) x.ts && decide (x.ts ≤ H)) =
            decide ((sampleCount d H - 1) * d < x.ts)
          rw [beforeTick_pos d _ (by omega), decide_eq_true (hAbaH x hx), Bool.and_true]
          by_cases hc : x.ts ≤ (sampleCount d H - 1) * d
          · rw [decide_eq_true hc, decide_eq_false (Nat.not_lt.mpr hc)]; rfl
          · rw [decide_eq_false hc, decide_eq_true (Nat.lt_of_not_le hc)]; rfl)
    refine ⟨fuel0, w1, hrun, ?_, ?_⟩
    · rw [hsum, hcsv0, hp0, c1]
      conv_rhs => rw [hsplit, hsplit2, countWhere_append, countWhere_append, c2, c3]
      omega
    · rw [hleft]
      conv_rhs => rw [hsplit, hsplit2, countWhere_append, countWhere_append, e1, e2, e3]
      omega
  · have hHd : H < 1 * d := by simpa using hdH
    obtain ⟨Aaa, Aab, hsplit2, hins2, hAaa, hAab⟩ :=
      insertEvent_split_sorted ⟨H, EventImpl.stop⟩ Aa hAas
    have hAaaH : ∀ x ∈ Aaa, x.ts ≤ H := hAaa
    have hAabH : ∀ x ∈ Aab, H < x.ts := hAab
    have hq : (Stop H (CheckThroughput d (scheduleArrivals arrivals w0))).events =
        Aaa ++ ⟨H, EventImpl.stop⟩ :: (Aab ++ ⟨1 * d, EventImpl.checkThroughput⟩ :: Ab) := by
      rw [hqe, hins, insertEvent_append_of_lt ⟨H, EventImpl.stop⟩
        ⟨1 * d, EventImpl.checkThroughput⟩ Aa Ab hHd, hins2, List.append_assoc]
      rfl
    have hqd : queuedDatagrams A = queuedDatagrams Aaa + queuedDatagrams Aab
        + queuedDatagrams Ab := by
      rw [hsplit, hsplit2, queuedDatagrams_append, queuedDatagrams_append]
    obtain ⟨w1, hrun, hcsvw, hleft⟩ := SimulatorRun_to_stop_count d H Aaa _ _
      (fun x hx => hAaarr x (by rw [hsplit2]; exact List.mem_append_left _ hx)) hs0 hq
      (by rw [hp0]; omega)
    have hN : sampleCount d H - 1 = 0 := by
      unfold sampleCount
      rw [if_neg (by omega)]
      have h2 := (lt_ceil_iff d H 1 hd).not.mpr (by omega)
      omega
    have c1 : countWhere (beforeTick d 0) A = 0 :=
      countWhere_none (beforeTick d 0) A (fun x _ => beforeTick_zero d x.ts)
    have e1 : countWhere (fun t => !beforeTick d 0 t && decide (t ≤ H)) Aaa
        = queuedDatagrams Aaa :=
      countWhere_all (fun t => !beforeTick d 0 t && decide (t ≤ H)) Aaa
        (fun x hx => by
          show (!beforeTick d 0 x.ts && decide (x.ts ≤ H)) = true
          rw [beforeTick_zero, decide_eq_true (hAaaH x hx)]; rfl)
    have e2 : countWhere (fun t => !beforeTick d 0 t && decide (t ≤ H)) Aab = 0 :=
      countWhere_none (fun t => !beforeTick d 0 t && decide (t ≤ H)) Aab
        (fun x hx => by
          show (!beforeTick d 0 x.ts && decide (x.ts ≤ H)) = false
          rw [decide_eq_false (Nat.not_le.mpr (hAabH x hx)), Bool.and_false])
    have e3 : countWhere (fun t => !beforeTick d 0 t && decide (t ≤ H)) Ab = 0 :=
      countWhere_none (fun t => !beforeTick d 0 t && decide (t ≤ H)) Ab
        (fun x hx => by
          show (!beforeTick d 0 x.ts && decide (x.ts ≤ H)) = false
          rw [decide_eq_false (Nat.not_le.mpr (Nat.lt_trans hHd (hAb1 x hx))),
            Bool.and_false])
    refine ⟨Aaa.length + 1, w1, hrun, ?_, ?_⟩
    · rw [hcsvw, hcsv0, hN, c1]
    · rw [hleft, hp0, hN]
      conv_rhs => rw [hsplit, hsplit2, countWhere_append, countWhere_append, e1, e2, e3]
      omega

/-! ## Rounding -/

theorem scale_eq (b : Nat) (k : Int) : scale b k = (b : ℚ) ^ k := by
  unfold scale
  split
  · rename_i h
    obtain ⟨n, rfl⟩ := Int.eq_ofNat_of_zero_le h
    simp
  · rename_i h
    obtain ⟨n, rfl⟩ : ∃ n : Nat, k = -(n : Int) := ⟨(-k).toNat, by omega⟩
    simp

theorem scale_pos (b : Nat) (hb : 0 < b) (k : Int) : 0 < scale b k := by
  rw [scale_eq]
  exact zpow_pos (by exact_mod_cast hb) k

theorem scale_succ (b : Nat) (hb : 0 < b) (k : Int) : scale b (k + 1) = scale b k * b := by
  rw [scale_eq, scale_eq, zpow_add_one₀ (by exact_mod_cast hb.ne')]

theorem roundHalfEven_err (q : ℚ) : |(roundHalfEven q : ℚ) - q| ≤ 1 / 2 := by
  have h1 : (⌊q⌋ : ℚ) ≤ q := Int.floor_le q
  have h2 : q < (⌊q⌋ : ℚ) + 1 := Int.lt_floor_add_one q
  unfold roundHalfEven
  split
  · rw [abs_le]; constructor <;> linarith
  · split
    · push_cast; rw [abs_le]; constructor <;> linarith
    · split
      · rw [abs_le]; constructor <;> linarith
      · push_cast; rw [abs_le]; constructor <;> linarith

theorem roundAt_err (b : Nat) (hb : 0 < b) (k : Int) (q : ℚ) :
    |roundAt b k q - q| ≤ scale b k / 2 := by
  have hs := scale_pos b hb k
  have h := roundHalfEven_err (q / scale b k)
  have e : roundAt b k q - q = ((roundHalfEven (q / scale b k) : ℚ) - q / scale b k)
      * scale b k := by
    unfold roundAt
    field_simp
  rw [e, abs_mul, abs_of_pos hs]
  calc |(roundHalfEven (q / scale b k) : ℚ) - q / scale b k| * scale b k
      ≤ 1 / 2 * scale b k := mul_le_mul_of_nonneg_right h hs.le
    _ = scale b k / 2 := by ring

theorem expUp_spec (b : Nat) (q : ℚ) (fuel : Nat) (k : Int)
    (hlo : scale b k ≤ q) (hhi : q < scale b (k + fuel + 1)) :
    scale b (expUp b q fuel k) ≤ q ∧ q < scale b (expUp b q fuel k + 1) := by
  induction fuel generalizing k with
  | zero => simpa [expUp] using And.intro hlo hhi
  | succ fuel ih =>
      unfold expUp
      split
      · rename_i h
        exact ih (k + 1) h (by
          have e : k + 1 + (fuel : Int) + 1 = k + ((fuel + 1 : Nat) : Int) + 1 := by
            push_cast; ring
          rw [e]; exact hhi)
      · rename_i h
        exact ⟨hlo, lt_of_not_le h⟩

theorem expDown_spec (b : Nat) (q : ℚ) (fuel : Nat) (k : Int)
    (hhi : q < scale b (k + 1)) (hlo : scale b (k - fuel) ≤ q) :
    scale b (expDown b q fuel k) ≤ q ∧ q < scale b (expDown b q fuel k + 1) := by
  induction fuel generalizing k with
  | zero => simpa [expDown] using And.intro hlo hhi
  | succ fuel ih =>
      unfold expDown
      split
      · rename_i h
        exact ⟨h, hhi⟩
      · rename_i h
        exact ih (k - 1) (by simpa using lt_of_not_le h) (by
          have e : k - 1 - (fuel : Int) = k - ((fuel + 1 : Nat) : Int) := by
            push_cast; ring
          rw [e]; exact hlo)

/-- The exponent found by `floorLog` brackets a positive rational between two
consecutive powers of the base. -/
theorem floorLog_spec (b : Nat) (hb : 2 ≤ b) (q : ℚ) (hq : 0 < q) :
    scale b (floorLog b q) ≤ q ∧ q < scale b (floorLog b q + 1) := by
  have hb0 : 0 < b := by omega
  have hbq : (1 : ℚ) < b := by exact_mod_cast (by omega : 1 < b)
  have hnum : 0 < q.num := Rat.num_pos.mpr hq
  have hden : (1 : ℚ) ≤ q.den := by exact_mod_cast q.den_pos
  have hqe : q = (q.num : ℚ) / q.den := (Rat.num_div_den q).symm
  unfold floorLog
  split
  · rename_i h1
    apply expUp_spec
    · simpa [scale_eq] using h1
    · have h0 : (q.num.natAbs : Int) = q.num := Int.natAbs_of_nonneg hnum.le
      have hn : (q.num.natAbs : ℚ) = q.num :=
        calc (q.num.natAbs : ℚ) = ((q.num.natAbs : Int) : ℚ) := (Int.cast_natCast _).symm
          _ = q.num := by rw [h0]
      have hle : q ≤ (q.num.natAbs : ℚ) := by
        rw [hn]
        have hpos : (0 : ℚ) < q.num := by exact_mod_cast hnum
        calc q = (q.num : ℚ) / q.den := hqe
          _ ≤ (q.num : ℚ) / 1 := by
              apply div_le_div_of_nonneg_left hpos.le one_pos hden
          _ = q.num := by simp
      have hpow : (q.num.natAbs : ℚ) < (b : ℚ) ^ (q.num.natAbs + 1) := by
        have h2 : q.num.natAbs < b ^ (q.num.natAbs + 1) :=
          lt_of_lt_of_le (Nat.lt_pow_self (by omega : 1 < b) _)
            (Nat.pow_le_pow_right hb0 (Nat.le_succ _))
        exact_mod_cast h2
      rw [scale_eq]
      have e : (0 : Int) + (q.num.natAbs : Int) + 1 = ((q.num.natAbs + 1 : Nat) : Int) := by
        push_cast; ring
      rw [e, zpow_natCast]
      exact lt_of_le_of_lt hle hpow
  · rename_i h1
    apply expDown_spec
    · simpa [scale_eq] using lt_of_not_le h1
    · rw [scale_eq]
      have e : (-1 : Int) - (q.den : Int) = -((q.den + 1 : Nat) : Int) := by
        push_cast; ring
      rw [e, zpow_neg, zpow_natCast]
      have hpow : (q.den : ℚ) < (b : ℚ) ^ (q.den + 1) := by
        have h2 : q.den < b ^ (q.den + 1) :=
          lt_of_lt_of_le (Nat.lt_pow_self (by omega : 1 < b) _)
            (Nat.pow_le_pow_right hb0 (Nat.le_succ _))
        exact_mod_cast h2
      have hdpos : (0 : ℚ) < q.den := by exact_mod_cast q.den_pos
      have h1n : (1 : ℚ) ≤ q.num := by exact_mod_cast hnum
      calc ((b : ℚ) ^ (q.den + 1))⁻¹ ≤ (q.den : ℚ)⁻¹ :=
            inv_anti₀ hdpos hpow.le
        _ = 1 / q.den := by simp
        _ ≤ (q.num : ℚ) / q.den := by
            apply div_le_div_of_nonneg_right h1n hdpos.le
        _ = q := hqe.symm

/-- Rounding to `c + 1` significant digits in base `b` moves a number by at most
half a unit of its last digit kept. -/
theorem roundAt_floorLog_err (b : Nat) (hb : 2 ≤ b) (c : Nat) (q : ℚ) (hq : q ≠ 0) :
    |roundAt b (floorLog b |q| - c) q - q| ≤ |q| / (2 * (b : ℚ) ^ c) := by
  have hb0 : 0 < b := by omega
  have hbq : (0 : ℚ) < b := by exact_mod_cast hb0
  have hlo := (floorLog_spec b hb |q| (abs_pos.mpr hq)).1
  have h := roundAt_err b hb0 (floorLog b |q| - c) q
  have e : scale b (floorLog b |q| - c) = scale b (floorLog b |q|) / (b : ℚ) ^ c := by
    rw [scale_eq, scale_eq, zpow_sub₀ hbq.ne', zpow_natCast]
  have hpc : (0 : ℚ) < (b : ℚ) ^ c := pow_pos hbq c
  calc |roundAt b (floorLog b |q| - c) q - q|
      ≤ scale b (floorLog b |q| - c) / 2 := h
    _ = scale b (floorLog b |q|) / (2 * (b : ℚ) ^ c) := by
        rw [e, div_div, mul_comm]
    _ ≤ |q| / (2 * (b : ℚ) ^ c) := by
        apply div_le_div_of_nonneg_right hlo (by positivity)

theorem toDouble_err (q : ℚ) : |toDouble q - q| ≤ |q| / 2 ^ 53 := by
  unfold toDouble
  split
  · rename_i h; simp [h]
  · rename_i h
    have := roundAt_floorLog_err 2 (by decide) 52 q h
    calc _ ≤ |q| / (2 * ((2 : Nat) : ℚ) ^ 52) := by exact_mod_cast this
      _ = |q| / 2 ^ 53 := by norm_num

theorem sixDigits_err (q : ℚ) : |sixDigits q - q| ≤ |q| / 200000 := by
  unfold sixDigits
  split
  · rename_i h; simp [h]
  · rename_i h
    have := roundAt_floorLog_err 10 (by decide) 5 q h
    calc _ ≤ |q| / (2 * ((10 : Nat) : ℚ) ^ 5) := by exact_mod_cast this
      _ = |q| / 200000 := by norm_num

/-- The number written for a quotient computed in `double` lies within six
millionths of the exact quotient. -/
theorem written_err (x : ℚ) (hx : 0 ≤ x) :
    |sixDigits (toDouble x) - x| ≤ x * 6 / 1000000 := by
  have h1 := toDouble_err x
  have h2 := sixDigits_err (toDouble x)
  rw [abs_of_nonneg hx] at h1
  have h3 : |toDouble x| ≤ x + x / 2 ^ 53 := by
    have := abs_sub_abs_le_abs_sub (toDouble x) x
    rw [abs_of_nonneg hx] at this
    linarith
  have h4 : |sixDigits (toDouble x) - x| ≤
      |sixDigits (toDouble x) - toDouble x| + |toDouble x - x| := by
    have := abs_add (sixDigits (toDouble x) - toDouble x) (toDouble x - x)
    simpa using this
  have h5 : |toDouble x| / 200000 ≤ (x + x / 2 ^ 53) / 200000 :=
    div_le_div_of_nonneg_right h3 (by norm_num)
  have h6 : (x + x / 2 ^ 53) / 200000 + x / 2 ^ 53 ≤ x * 6 / 1000000 := by
    have : (x + x / 2 ^ 53) / 200000 + x / 2 ^ 53
        = x * ((1 + 1 / 2 ^ 53) / 200000 + 1 / 2 ^ 53) := by ring
    rw [this, mul_div_assoc]
    apply mul_le_mul_of_nonneg_left _ hx
    norm_num
  linarith

theorem roundHalfEven_eq (z : ℚ) (M : ℤ) (h : |z - M| < 1 / 2) : roundHalfEven z = M := by
  have h1 := roundHalfEven_err z
  have h2 : |((roundHalfEven z - M : ℤ) : ℚ)| < 1 := by
    push_cast
    calc |(roundHalfEven z : ℚ) - M| = |((roundHalfEven z : ℚ) - z) + (z - M)| := by
          congr 1; ring
      _ ≤ |(roundHalfEven z : ℚ) - z| + |z - M| := abs_add _ _
      _ < 1 := by linarith
  have h3 : |roundHalfEven z - M| < 1 := by exact_mod_cast h2
  have h4 := Int.abs_lt_one_iff.mp h3
  omega

theorem scale_add_nat (b : Nat) (hb : 0 < b) (k : Int) (n : Nat) :
    scale b (k + n) = scale b k * (b : ℚ) ^ n := by
  rw [scale_eq, scale_eq, zpow_add₀ (by exact_mod_cast hb.ne'), zpow_natCast]

theorem scale_mono (b : Nat) (hb : 1 ≤ b) {j k : Int} (h : j ≤ k) : scale b j ≤ scale b k := by
  rw [scale_eq, scale_eq]
  exact zpow_le_zpow_right₀ (by exact_mod_cast hb) h

theorem below_next_power (x y u : ℚ) (m : ℤ) (hu : 0 < u) (hx : x = m * u)
    (hlt : x < u * 1000000) (hy : y ≤ x + x / 2 ^ 53) : y < u * 1000000 := by
  have h1 : (m : ℚ) * u < 1000000 * u := by rw [← hx, mul_comm 1000000 u]; exact hlt
  have h2 : (m : ℚ) < 1000000 := lt_of_mul_lt_mul_right h1 hu.le
  have h3 : m < 1000000 := by exact_mod_cast h2
  have h4 : (m : ℚ) ≤ 999999 := by
    have : m ≤ 999999 := by omega
    exact_mod_cast this
  have h5 : x ≤ 999999 * u := by
    rw [hx]; exact mul_le_mul_of_nonneg_right h4 hu.le
  have h6 : x + x / 2 ^ 53 = x * (1 + 1 / 2 ^ 53) := by ring
  have h7 : x * (1 + 1 / 2 ^ 53) ≤ 999999 * u * (1 + 1 / 2 ^ 53) :=
    mul_le_mul_of_nonneg_right h5 (by norm_num)
  have h8 : 999999 * u * (1 + 1 / 2 ^ 53) < u * 1000000 := by
    have : (999999 : ℚ) * (1 + 1 / 2 ^ 53) < 1000000 := by norm_num
    nlinarith
  linarith

theorem round_back (x y u : ℚ) (M : ℤ) (hu : 0 < u) (hxu : x = M * u)
    (hlo : x - x / 2 ^ 53 ≤ y) (hhi : y ≤ x + x / 2 ^ 53) (hup : y < u * 1000000) :
    (roundHalfEven (y / u) : ℚ) * u = x := by
  have hnear : |y / u - (M : ℚ)| < 1 / 2 := by
    have e : y / u - (M : ℚ) = (y - x) / u := by
      rw [sub_div]
      congr 1
      rw [eq_div_iff hu.ne']
      exact hxu.symm
    rw [e, abs_div, abs_of_pos hu, div_lt_iff₀ hu]
    have h6 : x * (1 - 1 / 2 ^ 53) < u * 1000000 := by
      have : x * (1 - 1 / 2 ^ 53) = x - x / 2 ^ 53 := by ring
      rw [this]; linarith
    have h7 : x / 2 ^ 53 < 1 / 2 * u := by
      norm_num at h6 ⊢
      linarith
    rw [abs_lt]
    constructor <;> linarith
  rw [roundHalfEven_eq _ _ hnear]
  exact hxu.symm

/-- A positive number with at most six significant digits is written exactly:
computing it in `double` and writing it with six digits gives the number
back. -/
theorem written_exact (x : ℚ) (hx : 0 < x) (m : ℤ)
    (hm : x = m * scale 10 (floorLog 10 x - 5)) : sixDigits (toDouble x) = x := by
  have hspec := floorLog_spec 10 (by decide) x hx
  have hu : 0 < scale 10 (floorLog 10 x - 5) := scale_pos 10 (by decide) _
  have hp1 : scale 10 (floorLog 10 x + 1) = scale 10 (floorLog 10 x - 5) * 1000000 := by
    have h := scale_add_nat 10 (by decide) (floorLog 10 x - 5) 6
    have e : floorLog 10 x - 5 + ((6 : Nat) : Int) = floorLog 10 x + 1 := by
      push_cast; ring
    rw [e] at h
    rw [h]; norm_num
  have herr := toDouble_err x
  rw [abs_of_pos hx, abs_le] at herr
  have hlo : x - x / 2 ^ 53 ≤ toDouble x := by linarith [herr.1]
  have hhi : toDouble x ≤ x + x / 2 ^ 53 := by linarith [herr.2]
  have hy : 0 < toDouble x := by
    have : x / 2 ^ 53 < x := by
      rw [div_lt_iff₀ (by positivity)]
      nlinarith
    linarith
  have hspec1 := floorLog_spec 10 (by decide) (toDouble x) hy
  have hbelow : toDouble x < scale 10 (floorLog 10 x + 1) := by
    rw [hp1]
    exact below_next_power x (toDouble x) _ m hu hm (hp1 ▸ hspec.2) hhi
  have hle : floorLog 10 (toDouble x) ≤ floorLog 10 x := by
    by_contra hcon
    have h1 : scale 10 (floorLog 10 x + 1) ≤ scale 10 (floorLog 10 (toDouble x)) :=
      scale_mono 10 (by decide) (by omega)
    exact absurd (lt_of_le_of_lt (le_trans h1 hspec1.1) hbelow) (lt_irrefl _)
  obtain ⟨n, hn⟩ : ∃ n : Nat, floorLog 10 x = floorLog 10 (toDouble x) + n :=
    ⟨(floorLog 10 x - floorLog 10 (toDouble x)).toNat, by omega⟩
  have hu1 : 0 < scale 10 (floorLog 10 (toDouble x) - 5) := scale_pos 10 (by decide) _
  have hsc : scale 10 (floorLog 10 x - 5)
      = scale 10 (floorLog 10 (toDouble x) - 5) * (10 : ℚ) ^ n := by
    have h := scale_add_nat 10 (by decide) (floorLog 10 (toDouble x) - 5) n
    have e : floorLog 10 (toDouble x) - 5 + (n : Int) = floorLog 10 x - 5 := by omega
    rw [e] at h
    rw [h]; norm_num
  have hxu : x = ((m * 10 ^ n : ℤ) : ℚ) * scale 10 (floorLog 10 (toDouble x) - 5) :=
    calc x = m * scale 10 (floorLog 10 x - 5) := hm
      _ = m * (scale 10 (floorLog 10 (toDouble x) - 5) * (10 : ℚ) ^ n) := by rw [hsc]
      _ = ((m * 10 ^ n : ℤ) : ℚ) * scale 10 (floorLog 10 (toDouble x) - 5) := by
          push_cast; ring
  have hp2 : scale 10 (floorLog 10 (toDouble x) + 1)
      = scale 10 (floorLog 10 (toDouble x) - 5) * 1000000 := by
    have h := scale_add_nat 10 (by decide) (floorLog 10 (toDouble x) - 5) 6
    have e : floorLog 10 (toDouble x) - 5 + ((6 : Nat) : Int)
        = floorLog 10 (toDouble x) + 1 := by push_cast; ring
    rw [e] at h
    rw [h]; norm_num
  have hback := round_back x (toDouble x) _ (m * 10 ^ n) hu1 hxu hlo hhi (hp2 ▸ hspec1.2)
  unfold sixDigits
  rw [if_neg hy.ne', abs_of_pos hy]
  exact hback

/-- A rate below 1000 kbit/s, that is fewer than 125000 bytes, has at most six
significant digits and is written exactly. -/
theorem rate_exact (B : Nat) (hB : B < 125000) :
    sixDigits (toDouble ((B : ℚ) * 8 / 1000)) = (B : ℚ) * 8 / 1000 := by
  rcases Nat.eq_zero_or_pos B with h0 | hpos
  · subst h0; simp [toDouble, sixDigits]
  · have hBq : (0 : ℚ) < B := by exact_mod_cast hpos
    have hx : (0 : ℚ) < (B : ℚ) * 8 / 1000 := by positivity
    have hlt : (B : ℚ) * 8 / 1000 < 1000 := by
      have : (B : ℚ) < 125000 := by exact_mod_cast hB
      rw [div_lt_iff₀ (by norm_num)]
      linarith
    have hspec := floorLog_spec 10 (by decide) _ hx
    have h3 : scale 10 3 = 1000 := by rw [scale_eq]; norm_num
    have hp : floorLog 10 ((B : ℚ) * 8 / 1000) ≤ 2 := by
      by_contra hcon
      have h1 : scale 10 3 ≤ scale 10 (floorLog 10 ((B : ℚ) * 8 / 1000)) :=
        scale_mono 10 (by decide) (by omega)
      rw [h3] at h1
      exact absurd (lt_of_le_of_lt (le_trans h1 hspec.1) hlt) (lt_irrefl _)
    obtain ⟨n, hn⟩ : ∃ n : Nat, floorLog 10 ((B : ℚ) * 8 / 1000) - 5 + (n : Int) = -3 :=
      ⟨(2 - floorLog 10 ((B : ℚ) * 8 / 1000)).toNat, by omega⟩
    have hsc := scale_add_nat 10 (by decide) (floorLog 10 ((B : ℚ) * 8 / 1000) - 5) n
    rw [hn] at hsc
    have hm3 : scale 10 (-3) = 1 / 1000 := by rw [scale_eq]; norm_num
    rw [hm3] at hsc
    have hpow : (0 : ℚ) < ((10 : Nat) : ℚ) ^ n := by positivity
    have hu : scale 10 (floorLog 10 ((B : ℚ) * 8 / 1000) - 5)
        = 1 / (1000 * ((10 : Nat) : ℚ) ^ n) := by
      rw [eq_div_iff (by positivity)]
      linarith
    apply written_exact _ hx ((B : ℤ) * 8 * 10 ^ n)
    rw [hu]
    push_cast
    field_simp
    ring

/-! ## Protocol selection -/

/-- C1: for protocol code 1, 2, 3, 4 the selector of `Run` succeeds and sets the
protocol name to OLSR, AODV, DSDV, DSR respectively; that name is not the
placeholder, and a run that completes has written at least one row and every
row it wrote carries that name. -/
theorem protocol_name_written (c : Nat) (name : String)
    (hc : (c = 1 ∧ name = "OLSR") ∨ (c = 2 ∧ name = "AODV") ∨
          (c = 3 ∧ name = "DSDV") ∨ (c = 4 ∧ name = "DSR"))
    (nWifis : Nat) (TotalTime intervalTime : Time) (adhocInterfaces : List Ipv4Address)
    (arrivals : List (Time × Socket)) (fuel : Nat) (nSinks : Int) (txp : ℚ) :
    (∃ w1, selectProtocol (setMembers nSinks txp (init c)) = .ok w1 ∧
        w1.m_protocolName = name) ∧
    name ≠ "protocol" ∧
    ∀ w1, Run nWifis TotalTime intervalTime adhocInterfaces arrivals fuel nSinks txp (init c)
          = some (.ok w1) →
      w1.m_protocolName = name ∧ w1.csv ≠ [] ∧ ∀ r ∈ w1.csv, r.RoutingProtocol = name := by
  obtain ⟨w1, hsel, hname, hcsv⟩ := selectProtocol_known c name nSinks txp hc
  refine ⟨⟨w1, hsel, hname⟩, ?_, ?_⟩
  · rcases hc with ⟨-, rfl⟩ | ⟨-, rfl⟩ | ⟨-, rfl⟩ | ⟨-, rfl⟩ <;> decide
  · intro w2 hrun
    unfold Run at hrun
    split at hrun
    · cases hrun
    · rename_i w3 hsetup
      simp only [setup, bind, Except.bind, hsel] at hsetup
      obtain ⟨fl, hfl⟩ := flowLoop_frame _ hsetup
      obtain ⟨ev, hev⟩ := scheduleArrivals_frame arrivals w3
      have h0 : RowsNamed name (CheckThroughput intervalTime
          (scheduleArrivals arrivals w3)) := by
        apply RowsNamed_CheckThroughput
        rw [hev, hfl]
        constructor
        · show (installStack (Create nWifis) w1).m_protocolName = name
          unfold installStack; split
          · exact hname
          · split <;> exact hname
        · show ∀ r ∈ (installStack (Create nWifis) w1).csv, r.RoutingProtocol = name
          have : (installStack (Create nWifis) w1).csv = [] := by
            unfold installStack; split
            · exact hcsv
            · split <;> exact hcsv
          rw [this]; intro r hr; cases hr
      simp only [Option.map_eq_some'] at hrun
      obtain ⟨w4, hw4, hok⟩ := hrun
      cases hok
      have h1 : RowsNamed name (Stop TotalTime (CheckThroughput intervalTime
          (scheduleArrivals arrivals w3))) := h0
      exact SimulatorRun_preserves intervalTime (RowsNamed name)
        (fun w e rest _ hw => RowsNamed_invoke intervalTime name w e rest hw) fuel _ _ h1 hw4

/-- Witness for C1: with code 2 the five-second run completes and all its rows
are labelled AODV. -/
theorem protocol_name_written_witness :
    Run 10 (Seconds 5) (Seconds 1) (sampleInterfaces 10) [] 6 2 27 (init 2)
      = some (.ok (resultOf (Run 10 (Seconds 5) (Seconds 1) (sampleInterfaces 10) [] 6 2 27
          (init 2)))) ∧
    (resultOf (Run 10 (Seconds 5) (Seconds 1) (sampleInterfaces 10) [] 6 2 27
        (init 2))).csv ≠ [] ∧
    ∀ r ∈ (resultOf (Run 10 (Seconds 5) (Seconds 1) (sampleInterfaces 10) [] 6 2 27
        (init 2))).csv, r.RoutingProtocol = "AODV" :=
  ⟨eq_of_completed (by decide!),
   ((protocol_name_written 2 "AODV" (Or.inr (Or.inl ⟨rfl, rfl⟩)) 10 (Seconds 5) (Seconds 1)
      (sampleInterfaces 10) [] 6 2 27).2.2 _ (eq_of_completed (by decide!))).2⟩

/-- C2: for a protocol code other than 1, 2, 3, 4 `Run` aborts with the
no-such-protocol fault in the state reached right after the opening assignments:
nothing is in the priority list, nothing was installed, no flow exists, no row
was written, no event is queued, the clock is at zero and the protocol name is
still the placeholder. For codes 1..4 the selector does not fail. -/
theorem unknown_protocol_aborts (c : Nat)
    (nWifis : Nat) (TotalTime intervalTime : Time) (adhocInterfaces : List Ipv4Address)
    (arrivals : List (Time × Socket)) (fuel : Nat) (nSinks : Int) (txp : ℚ) :
    ((c ≠ 1 ∧ c ≠ 2 ∧ c ≠ 3 ∧ c ≠ 4) →
      Run nWifis TotalTime intervalTime adhocInterfaces arrivals fuel nSinks txp (init c)
        = some (.error (Fault.noSuchProtocol c, setMembers nSinks txp (init c)))) ∧
    ((setMembers nSinks txp (init c)).list = [] ∧
      (setMembers nSinks txp (init c)).installs = [] ∧
      (setMembers nSinks txp (init c)).flows = [] ∧
      (setMembers nSinks txp (init c)).csv = [] ∧
      (setMembers nSinks txp (init c)).events = [] ∧
      (setMembers nSinks txp (init c)).now = 0 ∧
      (setMembers nSinks txp (init c)).m_protocolName = "protocol") ∧
    ((c = 1 ∨ c = 2 ∨ c = 3 ∨ c = 4) →
      ∃ w1, selectProtocol (setMembers nSinks txp (init c)) = .ok w1) := by
  refine ⟨?_, ⟨rfl, rfl, rfl, rfl, rfl, rfl, rfl⟩, ?_⟩
  · rintro ⟨h1, h2, h3, h4⟩
    have hsel : selectProtocol (setMembers nSinks txp (init c))
        = .error (Fault.noSuchProtocol c, setMembers nSinks txp (init c)) := by
      unfold selectProtocol
      split
      · rename_i h; exact absurd h h1
      · rename_i h; exact absurd h h2
      · rename_i h; exact absurd h h3
      · rename_i h; exact absurd h h4
      · rfl
    simp only [Run, setup, bind, Except.bind, hsel]
  · rintro (rfl | rfl | rfl | rfl) <;> exact ⟨_, rfl⟩

/-- Witness for C2: codes 5 and 0 abort before anything is installed or written;
code 4 passes the selector. -/
theorem unknown_protocol_aborts_witness :
    Run 10 (Seconds 60) (Seconds 1) (sampleInterfaces 10) [] 0 2 27 (init 5)
      = some (.error (Fault.noSuchProtocol 5, setMembers 2 27 (init 5))) ∧
    Run 10 (Seconds 60) (Seconds 1) (sampleInterfaces 10) [] 0 2 27 (init 0)
      = some (.error (Fault.noSuchProtocol 0, setMembers 2 27 (init 0))) ∧
    ∃ w1, selectProtocol (setMembers 2 27 (init 4)) = .ok w1 :=
  ⟨(unknown_protocol_aborts 5 10 (Seconds 60) (Seconds 1) (sampleInterfaces 10) [] 0 2 27).1
      (by decide),
   (unknown_protocol_aborts 0 10 (Seconds 60) (Seconds 1) (sampleInterfaces 10) [] 0 2 27).1
      (by decide),
   (unknown_protocol_aborts 4 10 (Seconds 60) (Seconds 1) (sampleInterfaces 10) [] 0 2 27).2.2
      (by decide)⟩

/-! ## Receive callback and sampling tick -/

/-- C3, as stated, fails: with `bytesTotal` at `2 ^ 32 - 1` a single one-byte
datagram leaves the counter at 0, not at the old value plus one. -/
theorem ReceivePacket_wraps_counterexample :
    (ReceivePacket ⟨0, 167837953, 9, [1]⟩
        { init 2 with bytesTotal := 4294967295 }).1.bytesTotal = 0 ∧
    (ReceivePacket ⟨0, 167837953, 9, [1]⟩
        { init 2 with bytesTotal := 4294967295 }).1.bytesTotal ≠ 4294967295 + [1].sum := by
  decide

/-- C3, amended: from any `uint32_t` counter state one call of `ReceivePacket`
empties the socket's queue and leaves `bytesTotal` at the old value plus the sum
of the datagram lengths and `packetsReceived` at the old value plus the number
of datagrams, both reduced modulo `2 ^ 32`; whenever those sums stay below
`2 ^ 32` the counters hold them exactly. -/
theorem ReceivePacket_counts (socket : Socket) (w : World)
    (hb : w.bytesTotal < UINT32) (hp : w.packetsReceived < UINT32) :
    (ReceivePacket socket w).2.pending = [] ∧
    (ReceivePacket socket w).1.bytesTotal = (w.bytesTotal + socket.pending.sum) % UINT32 ∧
    (ReceivePacket socket w).1.packetsReceived
      = (w.packetsReceived + socket.pending.length) % UINT32 ∧
    (w.bytesTotal + socket.pending.sum < UINT32 →
      (ReceivePacket socket w).1.bytesTotal = w.bytesTotal + socket.pending.sum) ∧
    (w.packetsReceived + socket.pending.length < UINT32 →
      (ReceivePacket socket w).1.packetsReceived = w.packetsReceived + socket.pending.length) := by
  have h : (ReceivePacket socket w).1 =
      { w with bytesTotal := (w.bytesTotal + socket.pending.sum) % UINT32,
               packetsReceived := (w.packetsReceived + socket.pending.length) % UINT32 } :=
    receiveLoop_eq _ _ hb hp
  refine ⟨rfl, ?_, ?_, ?_, ?_⟩
  · rw [h]
  · rw [h]
  · intro hlt; rw [h]; exact Nat.mod_eq_of_lt hlt
  · intro hlt; rw [h]; exact Nat.mod_eq_of_lt hlt

/-- Witness for C3: three datagrams of 1000, 0 and 500 bytes on top of counters
40 and 7 give 1540 bytes and 10 datagrams. -/
theorem ReceivePacket_counts_witness :
    (ReceivePacket ⟨0, 167837953, 9, [1000, 0, 500]⟩
        { init 2 with bytesTotal := 40, packetsReceived := 7 }).1.bytesTotal = 40 + 1500 ∧
    (ReceivePacket ⟨0, 167837953, 9, [1000, 0, 500]⟩
        { init 2 with bytesTotal := 40, packetsReceived := 7 }).1.packetsReceived = 7 + 3 :=
  ⟨(ReceivePacket_counts ⟨0, 167837953, 9, [1000, 0, 500]⟩
      { init 2 with bytesTotal := 40, packetsReceived := 7 } (by decide) (by decide)).2.2.2.1
      (by decide),
   (ReceivePacket_counts ⟨0, 167837953, 9, [1000, 0, 500]⟩
      { init 2 with bytesTotal := 40, packetsReceived := 7 } (by decide) (by decide)).2.2.2.2
      (by decide)⟩

/-- C4, as stated, fails. When 1234567 bytes arrive between two ticks, the row
written by the next tick has `ReceiveRate` 9876.54, the six-digit rendering, not
`1234567 * 8 / 1000 = 9876.536`. And when two datagrams of `2 ^ 31` bytes
arrive, the counter has wrapped and the row has `ReceiveRate` 0. -/
theorem CheckThroughput_row_counterexample :
    ((ProcessOneEvent (Seconds 1))^[2]
        { init 2 with events :=
            [⟨5, EventImpl.receivePacket ⟨0, 167837953, 9, [1234567]⟩⟩,
             ⟨Seconds 1, EventImpl.checkThroughput⟩] }).csv.map (fun r => r.ReceiveRate)
      = [987654 / 100] ∧
    ((ProcessOneEvent (Seconds 1))^[2]
        { init 2 with events :=
            [⟨5, EventImpl.receivePacket ⟨0, 167837953, 9, [1234567]⟩⟩,
             ⟨Seconds 1, EventImpl.checkThroughput⟩] }).csv.map (fun r => r.ReceiveRate)
      ≠ [(([1234567].sum : Nat) : ℚ) * 8 / 1000] ∧
    ((ProcessOneEvent (Seconds 1))^[2]
        { init 2 with events :=
            [⟨5, EventImpl.receivePacket ⟨0, 167837953, 9, [2147483648, 2147483648]⟩⟩,
             ⟨Seconds 1, EventImpl.checkThroughput⟩] }).csv.map (fun r => r.ReceiveRate)
      = [0] ∧
    ((ProcessOneEvent (Seconds 1))^[2]
        { init 2 with events :=
            [⟨5, EventImpl.receivePacket ⟨0, 167837953, 9, [2147483648, 2147483648]⟩⟩,
             ⟨Seconds 1, EventImpl.checkThroughput⟩] }).csv.map (fun r => r.ReceiveRate)
      ≠ [(([2147483648, 2147483648].sum : Nat) : ℚ) * 8 / 1000] := by
  decide!

/-- C4, amended: when the counters are zero (as at the start and after every
tick) and the queue holds a run of deliveries followed by a tick, then, provided
fewer than `2 ^ 32` bytes and fewer than `2 ^ 32` datagrams are delivered in
that run, processing them and the tick appends exactly one row. Its
`PacketsReceived` is the number of delivered datagrams. Its `ReceiveRate` is the
delivered bytes times 8 over 1000 as computed in `double` and written with six
significant digits: it lies within six millionths of the exact quotient and
is the exact quotient when fewer than 125000 bytes were delivered. Both
counters are zero afterwards. The first tick, which `Run` calls directly
with the counters still at zero, writes a row with rate 0 and no datagram. -/
theorem CheckThroughput_row_of_span (intervalTime t : Time)
    (arrivals : List (Time × Socket)) (tail : List Event) (w : World)
    (hb : w.bytesTotal = 0) (hp : w.packetsReceived = 0)
    (hq : w.events = receiveEvents arrivals ++ ⟨t, EventImpl.checkThroughput⟩ :: tail)
    (hB : bytesOf (arrivals.map Prod.snd) < UINT32)
    (hP : datagramsOf (arrivals.map Prod.snd) < UINT32) :
    (∃ r : Row,
      ((ProcessOneEvent intervalTime)^[arrivals.length + 1] w).csv = w.csv ++ [r] ∧
      r.PacketsReceived = datagramsOf (arrivals.map Prod.snd) ∧
      r.ReceiveRate =
        sixDigits (toDouble (((bytesOf (arrivals.map Prod.snd) : Nat) : ℚ) * 8 / 1000)) ∧
      |r.ReceiveRate - ((bytesOf (arrivals.map Prod.snd) : Nat) : ℚ) * 8 / 1000| ≤
        ((bytesOf (arrivals.map Prod.snd) : Nat) : ℚ) * 8 / 1000 * 6 / 1000000 ∧
      (bytesOf (arrivals.map Prod.snd) < 125000 →
        r.ReceiveRate = ((bytesOf (arrivals.map Prod.snd) : Nat) : ℚ) * 8 / 1000)) ∧
    ((ProcessOneEvent intervalTime)^[arrivals.length + 1] w).bytesTotal = 0 ∧
    ((ProcessOneEvent intervalTime)^[arrivals.length + 1] w).packetsReceived = 0 ∧
    ∃ r0 : Row, (CheckThroughput intervalTime w).csv = w.csv ++ [r0] ∧
      r0.PacketsReceived = 0 ∧ r0.ReceiveRate = 0 := by
  have hM : 0 < UINT32 := by decide
  obtain ⟨t1, h1⟩ := process_receives intervalTime arrivals
    (⟨t, EventImpl.checkThroughput⟩ :: tail) w (hb ▸ hM) (hp ▸ hM) hq
  rw [hb, hp, Nat.zero_add, Nat.zero_add, Nat.mod_eq_of_lt hB, Nat.mod_eq_of_lt hP] at h1
  refine ⟨⟨({ SimulationSecond := t,
               ReceiveRate :=
                 sixDigits (toDouble (((bytesOf (arrivals.map Prod.snd) : Nat) : ℚ) * 8 / 1000)),
               PacketsReceived := datagramsOf (arrivals.map Prod.snd),
               NumberOfSinks := w.m_nSinks, RoutingProtocol := w.m_protocolName,
               TransmissionPower := sixDigits w.m_txp } : Row), ?_, rfl, rfl, ?_, ?_⟩,
    ?_, ?_, ?_⟩
  · rw [Function.iterate_succ_apply', h1]
    rfl
  · exact written_err _ (by positivity)
  · intro hsmall
    exact rate_exact _ hsmall
  · rw [Function.iterate_succ_apply', h1]; rfl
  · rw [Function.iterate_succ_apply', h1]; rfl
  · refine ⟨({ SimulationSecond := w.now,
               ReceiveRate := sixDigits (toDouble (((w.bytesTotal : Nat) : ℚ) * 8 / 1000)),
               PacketsReceived := w.packetsReceived,
               NumberOfSinks := w.m_nSinks, RoutingProtocol := w.m_protocolName,
               TransmissionPower := sixDigits w.m_txp } : Row), rfl, hp, ?_⟩
    show sixDigits (toDouble (((w.bytesTotal : Nat) : ℚ) * 8 / 1000)) = 0
    rw [hb]
    simp [toDouble, sixDigits]

/-- Witness for C4: two sinks receive 1000 and 500+250 bytes before the tick at
one second; the row reads 14 kbit/s and 3 datagrams. -/
theorem CheckThroughput_row_of_span_witness :
    ∃ r : Row,
      ((ProcessOneEvent (Seconds 1))^[3]
        { init 2 with events :=
            [⟨5, EventImpl.receivePacket ⟨0, 167837953, 9, [1000]⟩⟩,
             ⟨7, EventImpl.receivePacket ⟨1, 167837954, 9, [500, 250]⟩⟩,
             ⟨Seconds 1, EventImpl.checkThroughput⟩] }).csv = [r] ∧
      r.PacketsReceived = 3 ∧ r.ReceiveRate = 14 := by
  obtain ⟨r, h1, h2, h3, -⟩ := (CheckThroughput_row_of_span (Seconds 1) (Seconds 1)
    [(5, ⟨0, 167837953, 9, [1000]⟩), (7, ⟨1, 167837954, 9, [500, 250]⟩)] []
    { init 2 with events :=
        [⟨5, EventImpl.receivePacket ⟨0, 167837953, 9, [1000]⟩⟩,
         ⟨7, EventImpl.receivePacket ⟨1, 167837954, 9, [500, 250]⟩⟩,
         ⟨Seconds 1, EventImpl.checkThroughput⟩] }
    rfl rfl rfl (by decide) (by decide)).1
  exact ⟨r, h1, h2, h3.trans (by decide!)⟩

/-! ## Traffic plan -/

/-- C8, as stated, fails: with 10 nodes and 6 sinks the setup of `Run` raises no
configuration error; the flow loop runs until iteration 4 asks the node
container for index 10, which is at the node count. -/
theorem pairing_unchecked_counterexample :
    faultOf (setup 10 (Seconds 60) (sampleInterfaces 10) 6 27 (init 2))
      = some (Fault.indexOutOfRange 10 10) := by
  decide

/-- C8, amended: the flow loop of `Run` has no pairing check. Over `n` nodes and
`n` addresses it goes wrong exactly when `n < 2 * nSinks`, and then by asking a
container of size `n` for an index at or beyond `n`, with the clock, the CSV
file and the event queue as they were on entry; when `2 * nSinks ≤ n` it
completes. -/
theorem flow_loop_fails_iff (n nSinks : Nat) (adhocInterfaces : List Ipv4Address)
    (TotalTime : Time) (w : World) (hi : adhocInterfaces.length = n) :
    (n < 2 * nSinks →
      ∃ idx w1, flowLoop (Create n) adhocInterfaces TotalTime nSinks nSinks 0 w
          = .error (Fault.indexOutOfRange idx n, w1) ∧ n ≤ idx ∧
        w1.now = w.now ∧ w1.csv = w.csv ∧ w1.events = w.events) ∧
    (2 * nSinks ≤ n →
      ∃ w1, flowLoop (Create n) adhocInterfaces TotalTime nSinks nSinks 0 w = .ok w1) := by
  constructor
  · intro h
    by_cases hk : nSinks ≤ n
    · exact flowLoop_error TotalTime hi nSinks 0 w ⟨n - nSinks, by omega, by omega, by omega⟩
    · exact flowLoop_error TotalTime hi nSinks 0 w ⟨0, by omega, by omega, by omega⟩
  · intro h
    exact ⟨_, flowLoop_ok TotalTime hi nSinks 0 w (by omega)⟩

/-- Witness for C8: 10 nodes with 6 sinks run into an out-of-range index, 10
nodes with 5 sinks do not. -/
theorem flow_loop_fails_iff_witness :
    (∃ idx w1, flowLoop (Create 10) (sampleInterfaces 10) (Seconds 60) 6 6 0 (init 2)
        = .error (Fault.indexOutOfRange idx 10, w1) ∧ 10 ≤ idx ∧
      w1.now = (init 2).now ∧ w1.csv = (init 2).csv ∧ w1.events = (init 2).events) ∧
    ∃ w1, flowLoop (Create 10) (sampleInterfaces 10) (Seconds 60) 5 5 0 (init 2) = .ok w1 :=
  ⟨(flow_loop_fails_iff 10 6 (sampleInterfaces 10) (Seconds 60) (init 2) (by decide)).1
      (by decide),
   (flow_loop_fails_iff 10 5 (sampleInterfaces 10) (Seconds 60) (init 2) (by decide)).2
      (by decide)⟩

/-- C9: over `n` nodes and `n` addresses with `2 * nSinks ≤ n`, the flow loop of
`Run`, entered with no flow yet, completes with exactly `nSinks` flows; flow `i`
has node `i` as receiver, bound to the experiment's port on address `i` of the
interface container, and node `i + nSinks` as sender aimed at that same address
and port. No sender is a receiver, and no two flows share a sender or a
receiver. -/
theorem flows_paired (n nSinks : Nat) (adhocInterfaces : List Ipv4Address)
    (TotalTime : Time) (w : World) (hi : adhocInterfaces.length = n)
    (h : 2 * nSinks ≤ n) (hf : w.flows = []) :
    ∃ w1, flowLoop (Create n) adhocInterfaces TotalTime nSinks nSinks 0 w = .ok w1 ∧
      w1.flows.length = nSinks ∧
      (∀ i, i < nSinks → ∃ f, w1.flows.get? i = some f ∧
        f.sink.node = i ∧ adhocInterfaces.get? i = some f.sink.addr ∧ f.sink.port = w.port ∧
        f.sender = i + nSinks ∧ f.remoteAddr = f.sink.addr ∧ f.remotePort = w.port) ∧
      (∀ f ∈ w1.flows, ∀ g ∈ w1.flows, f.sender ≠ g.sink.node) ∧
      (w1.flows.map (fun f => f.sender)).Nodup ∧
      (w1.flows.map (fun f => f.sink.node)).Nodup := by
  refine ⟨_, flowLoop_ok TotalTime hi nSinks 0 w (by omega), ?_, ?_, ?_, ?_, ?_⟩
  · simp [hf]
  · intro i hlt
    refine ⟨pairedFlow adhocInterfaces w.port TotalTime nSinks i, ?_, rfl, ?_, rfl, rfl, rfl,
      rfl⟩
    · simp [hf, List.range'_eq_map_range, List.get?_eq_getElem?, List.getElem?_range hlt]
    · have h2 : i < adhocInterfaces.length := by omega
      simp [pairedFlow, List.get?_eq_getElem?, List.getElem?_eq_getElem h2,
        List.getD_eq_getElem?_getD]
  · intro f hfm g hgm
    simp only [hf, List.nil_append, List.mem_map, List.mem_range'_1] at hfm hgm
    obtain ⟨a, ha, rfl⟩ := hfm
    obtain ⟨b, hb, rfl⟩ := hgm
    show a + nSinks ≠ b
    omega
  · simp only [hf, List.nil_append, List.map_map]
    refine List.Nodup.map ?_ (List.nodup_range' 0 nSinks)
    intro a b hab
    have hab1 : a + nSinks = b + nSinks := hab
    omega
  · simp only [hf, List.nil_append, List.map_map]
    refine List.Nodup.map ?_ (List.nodup_range' 0 nSinks)
    intro a b hab
    exact hab

/-- Witness for C9: the source's 10 nodes and 2 sinks. -/
theorem flows_paired_witness :
    ∃ w1, flowLoop (Create 10) (sampleInterfaces 10) (Seconds 60) 2 2 0 (init 2) = .ok w1 ∧
      w1.flows.length = 2 :=
  (flows_paired 10 2 (sampleInterfaces 10) (Seconds 60) (init 2) (by decide) (by decide)
      rfl).imp (fun _ hw => ⟨hw.1, hw.2.1⟩)

/-! ## Row count and rescheduling -/

/-- C5, as stated, fails: with the source's horizon of 60 s and interval of 1 s,
a datagram received at 59.5 s is counted (`packetsReceived` ends at 1, and no
delivery is left in the queue) but the 60 rows add up to 0 datagrams. -/
theorem rows_miss_tail_counterexample :
    completed (main 2 [(59500000000, ⟨0, 167837953, 9, [1000]⟩)] 80) = true ∧
    ((resultOf (main 2 [(59500000000, ⟨0, 167837953, 9, [1000]⟩)] 80)).csv.map
        (fun r => r.PacketsReceived)).sum = 0 ∧
    (resultOf (main 2 [(59500000000, ⟨0, 167837953, 9, [1000]⟩)] 80)).csv.length = 60 ∧
    (resultOf (main 2 [(59500000000, ⟨0, 167837953, 9, [1000]⟩)] 80)).packetsReceived = 1 ∧
    (resultOf (main 2 [(59500000000, ⟨0, 167837953, 9, [1000]⟩)] 80)).events
      = [⟨Seconds 60, EventImpl.checkThroughput⟩] := by
  decide!

/-- C5, amended: a run with a known protocol code, enough nodes, a positive
interval and a positive horizon, over any schedule of fewer than `2 ^ 32`
datagrams, completes, and then the `PacketsReceived` column summed over all rows
equals the number of datagrams delivered no later than the last tick (none, when
the only tick is the one called before the clock starts). The datagrams
delivered after the last tick and no later than the horizon are left in
`packetsReceived` and reach no row. Rows, counter and the deliveries still
queued behind the stop add up to the schedule, so nothing is counted twice. -/
theorem rows_account_for_deliveries (c : Nat) (hc : c = 1 ∨ c = 2 ∨ c = 3 ∨ c = 4)
    (nWifis : Nat) (H d : Nat) (hd : 0 < d) (hH : 0 < H)
    (adhocInterfaces : List Ipv4Address) (hi : adhocInterfaces.length = nWifis)
    (nSinks : Int) (hk : 2 * nSinks.toNat ≤ nWifis) (arrivals : List (Time × Socket))
    (htotal : datagramsOf (arrivals.map Prod.snd) < UINT32) (txp : ℚ) :
    ∃ fuel0 w1,
      (∀ fuel, Run nWifis H d adhocInterfaces arrivals (fuel0 + fuel) nSinks txp (init c)
        = some (.ok w1)) ∧
      (w1.csv.map (fun r => r.PacketsReceived)).sum =
        datagramsOf ((arrivals.filter
          (fun a => beforeTick d (sampleCount d H - 1) a.1)).map Prod.snd) ∧
      w1.packetsReceived =
        datagramsOf ((arrivals.filter
          (fun a => !beforeTick d (sampleCount d H - 1) a.1 && decide (a.1 ≤ H))).map
            Prod.snd) ∧
      (w1.csv.map (fun r => r.PacketsReceived)).sum + w1.packetsReceived
        + queuedDatagrams w1.events = datagramsOf (arrivals.map Prod.snd) := by
  obtain ⟨w0, hsetup⟩ := setup_ok c hc nWifis H adhocInterfaces hi nSinks hk txp
  obtain ⟨hnow, hev, hs, hcsv, -, hp, -⟩ := setup_frame hsetup
  obtain ⟨fuel0, w1, hrun, hsum, hleft⟩ :=
    SimulatorRun_rows_sum d H hd hH arrivals w0 hnow hev hs hp hcsv htotal
  rw [countWhere_scheduleArrivals _ arrivals w0 hnow hev] at hsum hleft
  refine ⟨fuel0, w1, fun fuel => ?_, hsum, hleft, ?_⟩
  · simp only [Run, hsetup, hrun fuel, Option.map_some']
  · have hstart : Conserved (datagramsOf (arrivals.map Prod.snd))
        (Stop H (CheckThroughput d (scheduleArrivals arrivals w0))) := by
      obtain ⟨ev, hsa⟩ := scheduleArrivals_frame arrivals w0
      have hq := queuedDatagrams_scheduleArrivals arrivals w0
      rw [hev, hsa] at hq
      have hq1 : queuedDatagrams ev = datagramsOf (arrivals.map Prod.snd) := by
        simpa [queuedDatagrams] using hq
      unfold Conserved
      rw [hsa]
      simp only [Stop, Schedule, CheckThroughput, queuedDatagrams_insertEvent, datagramsIn, hcsv,
        hp, hq1]
      simp
    exact SimulatorRun_preserves d (Conserved (datagramsOf (arrivals.map Prod.snd)))
      (fun w e rest hq hw => Conserved_invoke d _ htotal w e rest hq hw) _ _ _ hstart (hrun 0)

/-- Witness for C5: in the end-to-end scenario the last tick is the one at 4 s,
all ten datagrams arrive no later than that, and the rows add up to ten with
nothing left in the counter; evaluating the run gives the same figures. -/
theorem rows_account_for_deliveries_witness :
    (∃ fuel0 w1,
      (∀ fuel, Run 10 (Seconds 5) (Seconds 1) (sampleInterfaces 10) scenarioArrivals
        (fuel0 + fuel) 2 27 (init 2) = some (.ok w1)) ∧
      (w1.csv.map (fun r => r.PacketsReceived)).sum = 10 ∧ w1.packetsReceived = 0) ∧
    completed (Run 10 (Seconds 5) (Seconds 1) (sampleInterfaces 10) scenarioArrivals 20 2 27
        (init 2)) = true ∧
    ((resultOf (Run 10 (Seconds 5) (Seconds 1) (sampleInterfaces 10) scenarioArrivals 20 2 27
        (init 2))).csv.map (fun r => r.PacketsReceived)).sum = 10 ∧
    (resultOf (Run 10 (Seconds 5) (Seconds 1) (sampleInterfaces 10) scenarioArrivals 20 2 27
        (init 2))).packetsReceived = 0 := by
  obtain ⟨fuel0, w1, hrun, hsum, hleft, -⟩ :=
    rows_account_for_deliveries 2 (by decide) 10 (Seconds 5) (Seconds 1) (by decide)
      (by decide) (sampleInterfaces 10) (by decide) 2 (by decide) scenarioArrivals
      (by decide) 27
  exact ⟨⟨fuel0, w1, hrun, hsum.trans (by decide), hleft.trans (by decide)⟩, by decide!⟩

/-! ## End-to-end scenario -/

/-- C7, as stated, fails: in the scenario the first row, written before the
clock starts, has `PacketsReceived = 0` and `ReceiveRate = 0`, not 1 and 8. -/
theorem scenario_counterexample :
    completed (Run 10 (Seconds 5) (Seconds 1) (sampleInterfaces 10) scenarioArrivals 20 2 27
        (init 2)) = true ∧
    ((resultOf (Run 10 (Seconds 5) (Seconds 1) (sampleInterfaces 10) scenarioArrivals 20 2 27
        (init 2))).csv.head?.map (fun r => (r.ReceiveRate, r.PacketsReceived)))
      = some (0, 0) ∧
    ∀ r ∈ (resultOf (Run 10 (Seconds 5) (Seconds 1) (sampleInterfaces 10) scenarioArrivals 20 2
        27 (init 2))).csv, ¬ (r.ReceiveRate = 8 ∧ r.PacketsReceived = 1) := by
  decide!

/-- C7, amended: in the scenario the run completes with exactly 5 rows, stamped
0, 1, 2, 3, 4 s, all with `NumberOfSinks = 2`. The row at 0 s has rate 0 and no
datagram; the row at 1 s covers the deliveries of seconds 0 and 1 to both sinks,
4 datagrams and 32 kbit/s; the rows at 2, 3 and 4 s cover one delivery to each
sink, 2 datagrams and 16 kbit/s. -/
theorem scenario_rows :
    completed (Run 10 (Seconds 5) (Seconds 1) (sampleInterfaces 10) scenarioArrivals 20 2 27
        (init 2)) = true ∧
    (resultOf (Run 10 (Seconds 5) (Seconds 1) (sampleInterfaces 10) scenarioArrivals 20 2 27
        (init 2))).csv.map
          (fun r => (r.SimulationSecond, r.ReceiveRate, r.PacketsReceived, r.NumberOfSinks))
      = [(Seconds 0, 0, 0, 2), (Seconds 1, 32, 4, 2), (Seconds 2, 16, 2, 2),
         (Seconds 3, 16, 2, 2), (Seconds 4, 16, 2, 2)] := by
  decide!

/-! ## Flow windows and install paths -/

/-- Events leave the flows, the priority list and the record of installations
alone. -/
theorem static_invoke (d : Time) (w : World) (e : Event) (rest : List Event) :
    (invoke d e.impl { w with now := e.ts, events := rest }).flows = w.flows ∧
    (invoke d e.impl { w with now := e.ts, events := rest }).installs = w.installs ∧
    (invoke d e.impl { w with now := e.ts, events := rest }).list = w.list := by
  cases hi : e.impl with
  | checkThroughput => exact ⟨rfl, rfl, rfl⟩
  | stop => exact ⟨rfl, rfl, rfl⟩
  | receivePacket socket =>
      obtain ⟨b, p, hf⟩ := receiveLoop_frame socket.pending { w with now := e.ts, events := rest }
      show (receiveLoop socket.pending { w with now := e.ts, events := rest }).flows = w.flows ∧
        (receiveLoop socket.pending { w with now := e.ts, events := rest }).installs
          = w.installs ∧
        (receiveLoop socket.pending { w with now := e.ts, events := rest }).list = w.list
      rw [hf]
      exact ⟨rfl, rfl, rfl⟩

/-- A run that completes ends with the flows, the priority list and the
installations that the setup left. -/
theorem Run_static (c : Nat) (hc : c = 1 ∨ c = 2 ∨ c = 3 ∨ c = 4) (nWifis : Nat)
    (H d : Nat) (hd : 0 < d) (hH : 0 < H) (adhocInterfaces : List Ipv4Address)
    (hi : adhocInterfaces.length = nWifis) (nSinks : Int) (hk : 2 * nSinks.toNat ≤ nWifis)
    (arrivals : List (Time × Socket)) (txp : ℚ) :
    ∃ fuel0 w0 w1,
      setup nWifis H adhocInterfaces nSinks txp (init c) = .ok w0 ∧
      (∀ fuel, Run nWifis H d adhocInterfaces arrivals (fuel0 + fuel) nSinks txp (init c)
        = some (.ok w1)) ∧
      w1.flows = w0.flows ∧ w1.installs = w0.installs ∧ w1.list = w0.list := by
  obtain ⟨w0, hsetup⟩ := setup_ok c hc nWifis H adhocInterfaces hi nSinks hk txp
  obtain ⟨hnow, hev, hs, -⟩ := setup_frame hsetup
  obtain ⟨fuel0, w1, hrun, -, -⟩ := SimulatorRun_rows d H hd hH arrivals w0 hnow hev hs
  refine ⟨fuel0, w0, w1, hsetup, fun fuel => ?_, ?_⟩
  · simp only [Run, hsetup, hrun fuel, Option.map_some']
  · obtain ⟨ev, hsa⟩ := scheduleArrivals_frame arrivals w0
    have hstart : (Stop H (CheckThroughput d (scheduleArrivals arrivals w0))).flows = w0.flows ∧
        (Stop H (CheckThroughput d (scheduleArrivals arrivals w0))).installs = w0.installs ∧
        (Stop H (CheckThroughput d (scheduleArrivals arrivals w0))).list = w0.list := by
      rw [hsa]; exact ⟨rfl, rfl, rfl⟩
    exact SimulatorRun_preserves d
      (fun w => w.flows = w0.flows ∧ w.installs = w0.installs ∧ w.list = w0.list)
      (fun w e rest _ hw => by
        obtain ⟨h1, h2, h3⟩ := static_invoke d w e rest
        exact ⟨h1.trans hw.1, h2.trans hw.2.1, h3.trans hw.2.2⟩)
      _ _ _ hstart (hrun 0)

/-- What a successful setup leaves in the flows, the installations and the
priority list, in terms of the state the protocol switch produced. -/
theorem setup_stages {c : Nat} (hc : c = 1 ∨ c = 2 ∨ c = 3 ∨ c = 4) {nWifis : Nat}
    {TotalTime : Time} {adhocInterfaces : List Ipv4Address}
    (hi : adhocInterfaces.length = nWifis) {nSinks : Int} (hk : 2 * nSinks.toNat ≤ nWifis)
    {txp : ℚ} {w0 : World}
    (h : setup nWifis TotalTime adhocInterfaces nSinks txp (init c) = .ok w0) :
    ∃ ws, selectProtocol (setMembers nSinks txp (init c)) = .ok ws ∧
      w0.flows = (List.range' 0 nSinks.toNat).map
        (pairedFlow adhocInterfaces 9 TotalTime nSinks.toNat) ∧
      w0.installs = (installStack (Create nWifis) ws).installs ∧ w0.list = ws.list := by
  obtain ⟨ws, hsel, hfl, hport⟩ : ∃ ws, selectProtocol (setMembers nSinks txp (init c)) = .ok ws ∧
      ws.flows = [] ∧ ws.port = 9 := by
    rcases hc with rfl | rfl | rfl | rfl <;> exact ⟨_, rfl, rfl, rfl⟩
  have hst : (installStack (Create nWifis) ws).flows = ws.flows ∧
      (installStack (Create nWifis) ws).port = ws.port ∧
      (installStack (Create nWifis) ws).list = ws.list := by
    unfold installStack
    split
    · exact ⟨rfl, rfl, rfl⟩
    · split <;> exact ⟨rfl, rfl, rfl⟩
  have hle : 0 + nSinks.toNat + nSinks.toNat ≤ nWifis := by omega
  have hloop := @flowLoop_ok nWifis adhocInterfaces TotalTime nSinks.toNat hi nSinks.toNat 0
    (installStack (Create nWifis) ws) hle
  simp only [setup, bind, Except.bind, hsel] at h
  have heq := hloop.symm.trans h
  simp only [Except.ok.injEq] at heq
  refine ⟨ws, hsel, ?_, ?_, ?_⟩
  · rw [← heq, hst.1, hst.2.1, hfl, hport]; rfl
  · rw [← heq]
  · rw [← heq]; exact hst.2.2

/-- C11, as stated, fails: with the constants of the source both sender flows
start at 0 and stop at 60 s, the horizon itself, not before it. -/
theorem flow_window_counterexample :
    completed (main 2 [] 80) = true ∧
    (resultOf (main 2 [] 80)).flows.map (fun f => (f.start, f.stop))
      = [(0, Seconds 60), (0, Seconds 60)] ∧
    ¬ ∀ f ∈ (resultOf (main 2 [] 80)).flows, f.stop < Seconds 60 := by
  decide!

/-- C11, amended: a run with a known protocol code, enough nodes, a positive
interval and a positive horizon completes with one sender flow per sink, each
with start time 0 and stop time equal to the horizon `TotalTime` at which the
stop event is registered, not earlier. A margin before the horizon, of one
millisecond, is what `AodvExample::InstallApplications` of `aodv_example.cc`
gives its ping application. -/
theorem flow_window (c : Nat) (hc : c = 1 ∨ c = 2 ∨ c = 3 ∨ c = 4) (nWifis : Nat)
    (H d : Nat) (hd : 0 < d) (hH : 0 < H) (adhocInterfaces : List Ipv4Address)
    (hi : adhocInterfaces.length = nWifis) (nSinks : Int) (hk : 2 * nSinks.toNat ≤ nWifis)
    (arrivals : List (Time × Socket)) (txp : ℚ) :
    (∃ fuel0 w1,
      (∀ fuel, Run nWifis H d adhocInterfaces arrivals (fuel0 + fuel) nSinks txp (init c)
        = some (.ok w1)) ∧
      w1.flows.length = nSinks.toNat ∧
      ∀ f ∈ w1.flows, f.start = 0 ∧ f.stop = H) ∧
    ∀ (size : Nat) (totalTime : Time) (nodes : List Node) (interfaces : List Ipv4Address)
      (app : PingApplication),
      AodvExample.InstallApplications size totalTime nodes interfaces = some app →
        app.start = 0 ∧ app.stop = (totalTime : Int) - 1000000 ∧ app.stop < (totalTime : Int) := by
  constructor
  · obtain ⟨fuel0, w0, w1, hsetup, hrun, hflows, -, -⟩ :=
      Run_static c hc nWifis H d hd hH adhocInterfaces hi nSinks hk arrivals txp
    obtain ⟨ws, -, hfl, -, -⟩ := setup_stages hc hi hk hsetup
    refine ⟨fuel0, w1, hrun, ?_, ?_⟩
    · rw [hflows, hfl]; simp
    · intro f hf
      rw [hflows, hfl, List.mem_map] at hf
      obtain ⟨i, -, rfl⟩ := hf
      exact ⟨rfl, rfl⟩
  · intro size totalTime nodes interfaces app happ
    unfold AodvExample.InstallApplications at happ
    split at happ
    · simp only [Option.some.injEq] at happ
      subst happ
      refine ⟨rfl, rfl, ?_⟩
      show (totalTime : Int) - 1000000 < (totalTime : Int)
      omega
    · cases happ

/-- Witness for C11: the constants of the source, and the ping application of
`aodv_example.cc` with its 10 nodes and 100 s. -/
theorem flow_window_witness :
    (∃ fuel0 w1,
      (∀ fuel, Run 10 (Seconds 60) (Seconds 1) (sampleInterfaces 10) [] (fuel0 + fuel) 2 27
        (init 2) = some (.ok w1)) ∧
      w1.flows.length = 2 ∧
      ∀ f ∈ w1.flows, f.start = 0 ∧ f.stop = Seconds 60) ∧
    ∃ app, AodvExample.InstallApplications 10 (Seconds 100) (Create 10) (sampleInterfaces 10)
        = some app ∧ app.stop < ((Seconds 100 : Nat) : Int) :=
  ⟨(flow_window 2 (by decide) 10 (Seconds 60) (Seconds 1) (by decide) (by decide)
      (sampleInterfaces 10) (by decide) 2 (by decide) [] 27).1,
   ⟨_, rfl,
    ((flow_window 2 (by decide) 10 (Seconds 60) (Seconds 1) (by decide) (by decide)
      (sampleInterfaces 10) (by decide) 2 (by decide) [] 27).2
        10 (Seconds 100) (Create 10) (sampleInterfaces 10) _ rfl).2.2⟩⟩

/-- C12: for protocol code 1, 2 or 3 the switch of `Run` puts exactly one entry,
the chosen protocol with priority 100, into the priority list, and the stack is
installed on all nodes in one step with that list and no DSR agent; for code 4
the list stays empty, the stack is installed on all nodes without the list, and
the DSR agent is then attached to the same nodes. A run that completes ends with
exactly that record of installations, so one and only one of the two paths has
run. -/
theorem install_paths (c : Nat) (routing : String)
    (hc : (c = 1 ∧ routing = "olsr") ∨ (c = 2 ∧ routing = "aodv") ∨
          (c = 3 ∧ routing = "dsdv") ∨ (c = 4 ∧ routing = "dsr"))
    (nWifis : Nat) (H d : Nat) (hd : 0 < d) (hH : 0 < H)
    (adhocInterfaces : List Ipv4Address) (hi : adhocInterfaces.length = nWifis)
    (nSinks : Int) (hk : 2 * nSinks.toNat ≤ nWifis) (arrivals : List (Time × Socket))
    (txp : ℚ) :
    (∃ ws, selectProtocol (setMembers nSinks txp (init c)) = .ok ws ∧
      (c ≠ 4 → ws.list = [⟨routing, 100⟩] ∧
        (installStack (Create nWifis) ws).installs =
          [InstallAction.internetInstall (some [⟨routing, 100⟩]) (Create nWifis)]) ∧
      (c = 4 → ws.list = [] ∧
        (installStack (Create nWifis) ws).installs =
          [InstallAction.internetInstall none (Create nWifis),
           InstallAction.dsrMainInstall (Create nWifis)])) ∧
    ∃ fuel0 w1,
      (∀ fuel, Run nWifis H d adhocInterfaces arrivals (fuel0 + fuel) nSinks txp (init c)
        = some (.ok w1)) ∧
      (c ≠ 4 → w1.list = [⟨routing, 100⟩] ∧
        w1.installs = [InstallAction.internetInstall (some [⟨routing, 100⟩]) (Create nWifis)]) ∧
      (c = 4 → w1.list = [] ∧
        w1.installs = [InstallAction.internetInstall none (Create nWifis),
                       InstallAction.dsrMainInstall (Create nWifis)]) := by
  have hc1 : c = 1 ∨ c = 2 ∨ c = 3 ∨ c = 4 := by
    rcases hc with ⟨h, -⟩ | ⟨h, -⟩ | ⟨h, -⟩ | ⟨h, -⟩ <;> simp [h]
  have hstage : ∀ ws, selectProtocol (setMembers nSinks txp (init c)) = .ok ws →
      (c ≠ 4 → ws.list = [⟨routing, 100⟩] ∧
        (installStack (Create nWifis) ws).installs =
          [InstallAction.internetInstall (some [⟨routing, 100⟩]) (Create nWifis)]) ∧
      (c = 4 → ws.list = [] ∧
        (installStack (Create nWifis) ws).installs =
          [InstallAction.internetInstall none (Create nWifis),
           InstallAction.dsrMainInstall (Create nWifis)]) := by
    intro ws hsel
    rcases hc with ⟨rfl, rfl⟩ | ⟨rfl, rfl⟩ | ⟨rfl, rfl⟩ | ⟨rfl, rfl⟩
    · have hws : Except.ok _ = Except.ok ws := hsel
      cases hws
      exact ⟨fun _ => ⟨rfl, rfl⟩, fun h => absurd h (by decide)⟩
    · have hws : Except.ok _ = Except.ok ws := hsel
      cases hws
      exact ⟨fun _ => ⟨rfl, rfl⟩, fun h => absurd h (by decide)⟩
    · have hws : Except.ok _ = Except.ok ws := hsel
      cases hws
      exact ⟨fun _ => ⟨rfl, rfl⟩, fun h => absurd h (by decide)⟩
    · have hws : Except.ok _ = Except.ok ws := hsel
      cases hws
      exact ⟨fun h => absurd rfl h, fun _ => ⟨rfl, rfl⟩⟩
  obtain ⟨fuel0, w0, w1, hsetup, hrun, -, hinst, hlist⟩ :=
    Run_static c hc1 nWifis H d hd hH adhocInterfaces hi nSinks hk arrivals txp
  obtain ⟨ws, hsel, -, hinst0, hlist0⟩ := setup_stages hc1 hi hk hsetup
  obtain ⟨hA, hB⟩ := hstage ws hsel
  refine ⟨⟨ws, hsel, hA, hB⟩, fuel0, w1, hrun, ?_, ?_⟩
  · intro hne
    exact ⟨(hlist.trans hlist0).trans (hA hne).1, (hinst.trans hinst0).trans (hA hne).2⟩
  · intro heq
    exact ⟨(hlist.trans hlist0).trans (hB heq).1, (hinst.trans hinst0).trans (hB heq).2⟩

/-- Witness for C12: code 1 takes the list path with OLSR at priority 100, code
4 the two-step path with the DSR agent. -/
theorem install_paths_witness :
    (∃ fuel0 w1,
      (∀ fuel, Run 10 (Seconds 60) (Seconds 1) (sampleInterfaces 10) [] (fuel0 + fuel) 2 27
        (init 1) = some (.ok w1)) ∧
      w1.list = [⟨"olsr", 100⟩] ∧
      w1.installs = [InstallAction.internetInstall (some [⟨"olsr", 100⟩]) (Create 10)]) ∧
    ∃ fuel0 w1,
      (∀ fuel, Run 10 (Seconds 60) (Seconds 1) (sampleInterfaces 10) [] (fuel0 + fuel) 2 27
        (init 4) = some (.ok w1)) ∧
      w1.list = [] ∧
      w1.installs = [InstallAction.internetInstall none (Create 10),
                     InstallAction.dsrMainInstall (Create 10)] := by
  obtain ⟨fuelA, wA, hrunA, hA, -⟩ :=
    (install_paths 1 "olsr" (Or.inl ⟨rfl, rfl⟩) 10 (Seconds 60) (Seconds 1) (by decide)
      (by decide) (sampleInterfaces 10) (by decide) 2 (by decide) [] 27).2
  obtain ⟨fuelB, wB, hrunB, -, hB⟩ :=
    (install_paths 4 "dsr" (Or.inr (Or.inr (Or.inr ⟨rfl, rfl⟩))) 10 (Seconds 60) (Seconds 1)
      (by decide) (by decide) (sampleInterfaces 10) (by decide) 2 (by decide) [] 27).2
  exact ⟨⟨fuelA, wA, hrunA, hA (by decide)⟩, ⟨fuelB, wB, hrunB, hB rfl⟩⟩

end RoutingExperiment
